import Mathlib

/-!
# EAN-13 row decoder (`barcode.h`, `barcode.cpp`)

A shallow embedding of the class `Barcode`: the symbol tables, the structure
segmenter, the digit quantizer, the table lookups, the checksum validator and
the multi-row driver, followed by theorems about them.

Modelling conventions.

* A pixel is a `uchar`, held as a `Nat`; a scanline is the list of the
  `max_image_index` pixels of one image row.  A read `test_row[index]` is
  `test_row.getD index 0`; every read of the code happens under the loop guard
  `index < max_image_index`.
* `int` values (run lengths, digits, pattern codes) are unbounded integers: a
  run length never exceeds the image width and a digit never exceeds 9, so no
  `int` operation of the code can overflow.
* A `float` value is the rational number (`ℚ`) it stands for, a cast `(int) x`
  is truncation toward zero.  The digit quantizer comes in two readings:
  `decode_single_number` divides exactly, `decode_single_number_float` rounds
  every `float` operation to binary32 as the compiled code does.  The row
  decoder and the properties of the quantizer that are stated for exact
  division use the first, those that depend on the rounding use the second.
* The member function bodies mutate the object; here each of them is a function
  from the object state (`Barcode`) to the object state.
* The segmenter executes `part[part_index]++` also when `part_index` has just
  become `part_size`.  That increment is outside the run group.  The run-group
  result records how many such increments happened (`spill`), and the embedding
  takes as a parameter (`adjacent`) what becomes of them: with `adjacent = false`
  they are lost, with `adjacent = true` they land in slot 0 of the run group
  declared next in the class (`left_guards`, `middle_guards`, `right_guards`,
  `left_code`, `right_code` in this order; nothing is declared right after
  `right_code`).  Every theorem below holds for both values.
* The two segmenter functions also come in a variant whose pixel read is
  checked (`..._checked`, result `none` when a read falls outside the pixels of
  the scanline); it serves to state that no read leaves the scanline.
-/

namespace BarcodeDetector

/-! ## Symbol tables (`barcode.h`) -/

/-- Table `LG_EAN_map`: pattern code to (digit, parity letter) for the left half. -/
def LG_EAN_map : List (Int × (Nat × Char)) :=
  [ (3211, (0, 'L')), (1123, (0, 'G')),
    (2221, (1, 'L')), (1222, (1, 'G')),
    (2122, (2, 'L')), (2212, (2, 'G')),
    (1411, (3, 'L')), (1141, (3, 'G')),
    (1132, (4, 'L')), (2311, (4, 'G')),
    (1231, (5, 'L')), (1321, (5, 'G')),
    (1114, (6, 'L')), (4111, (6, 'G')),
    (1312, (7, 'L')), (2131, (7, 'G')),
    (1213, (8, 'L')), (3121, (8, 'G')),
    (3112, (9, 'L')), (2113, (9, 'G')) ]

/-- Table `R_EAN_map`: pattern code to (digit, 'R') for the right half. -/
def R_EAN_map : List (Int × (Nat × Char)) :=
  [ (3211, (0, 'R')),
    (2221, (1, 'R')),
    (2122, (2, 'R')),
    (1411, (3, 'R')),
    (1132, (4, 'R')),
    (1231, (5, 'R')),
    (1114, (6, 'R')),
    (1312, (7, 'R')),
    (1213, (8, 'R')),
    (3112, (9, 'R')) ]

/-- Table `EAN_13_map`: parity string of the left half to the leading digit. -/
def EAN_13_map : List (List Char × Nat) :=
  [ (['L', 'L', 'L', 'L', 'L', 'L'], 0),
    (['L', 'L', 'G', 'L', 'G', 'G'], 1),
    (['L', 'L', 'G', 'G', 'L', 'G'], 2),
    (['L', 'L', 'G', 'G', 'G', 'L'], 3),
    (['L', 'G', 'L', 'L', 'G', 'G'], 4),
    (['L', 'G', 'G', 'L', 'L', 'G'], 5),
    (['L', 'G', 'G', 'G', 'L', 'L'], 6),
    (['L', 'G', 'L', 'G', 'L', 'G'], 7),
    (['L', 'G', 'L', 'G', 'G', 'L'], 8),
    (['L', 'G', 'G', 'L', 'G', 'L'], 9) ]

/-! ## Constants and state of `class Barcode` -/

def black_color : Nat := 0
def white_color : Nat := 255
def left_guards_size : Nat := 3
def middle_guards_size : Nat := 5
def right_guards_size : Nat := 3
def left_code_size : Nat := 24
def right_code_size : Nat := 24
def barcode_number_size : Nat := 13
def check_sum_coeffs : List Nat := [1, 3, 1, 3, 1, 3, 1, 3, 1, 3, 1, 3, 1]

/-- The mutable members of a `Barcode` object. -/
structure Barcode where
  left_guards : List Nat
  middle_guards : List Nat
  right_guards : List Nat
  left_code : List Nat
  right_code : List Nat
  has_barcode_structure : Bool
  is_identified : Bool
  is_correct : Bool
  barcode_number : List Nat
deriving DecidableEq

/-- The members as their in-class initialisers leave them (`= {}`, `= false`). -/
def Barcode.fresh : Barcode where
  left_guards := List.replicate left_guards_size 0
  middle_guards := List.replicate middle_guards_size 0
  right_guards := List.replicate right_guards_size 0
  left_code := List.replicate left_code_size 0
  right_code := List.replicate right_code_size 0
  has_barcode_structure := false
  is_identified := false
  is_correct := false
  barcode_number := List.replicate barcode_number_size 0

/-- Accessor `is_decoded ()`. -/
def Barcode.is_decoded (s : Barcode) : Bool := s.is_correct

/-- Body of `clear_data`: six `memset`s, the three flags are not touched. -/
def clear_data (s : Barcode) : Barcode :=
  { s with
    left_guards := List.replicate left_guards_size 0
    left_code := List.replicate left_code_size 0
    middle_guards := List.replicate middle_guards_size 0
    right_code := List.replicate right_code_size 0
    right_guards := List.replicate right_guards_size 0
    barcode_number := List.replicate barcode_number_size 0 }

/-- Loop of `get_barcode_number`, `i` running over the given indices with
`decimals = 10 ^ i` on entry. -/
def get_barcode_number_loop (barcode_number : List Nat) : List Nat → Nat → Nat → Nat
  | [], ans, _ => ans
  | i :: is, ans, decimals =>
      get_barcode_number_loop barcode_number is
        (ans + barcode_number.getD (barcode_number_size - 1 - i) 0 * decimals) (decimals * 10)

/-- Member `get_barcode_number`. -/
def get_barcode_number (s : Barcode) : Nat :=
  get_barcode_number_loop s.barcode_number (List.range barcode_number_size) 0 1

/-! ## Structure segmenter -/

/-- Loop of `find_row_structure_part_beg`; `fuel` bounds the number of iterations. -/
def find_row_structure_part_beg_loop (max_image_index : Nat) (test_row : List Nat)
    (part_color : Nat) : Nat → Nat → Nat
  | 0, _ => max_image_index
  | fuel + 1, index =>
      if index < max_image_index then
        if test_row.getD index 0 = part_color then index
        else find_row_structure_part_beg_loop max_image_index test_row part_color fuel (index + 1)
      else max_image_index

/-- Member `find_row_structure_part_beg`: index of the first pixel of colour
`part_color` at or after `beg_index`, or `max_image_index`. -/
def find_row_structure_part_beg (max_image_index : Nat) (test_row : List Nat)
    (beg_index part_color : Nat) : Nat :=
  find_row_structure_part_beg_loop max_image_index test_row part_color
    (max_image_index - beg_index) beg_index

/-- Variables of the `for` loop of `constract_row_structure_part`.  `part` holds
the slots `part[0 .. part_size - 1]`; `spill` counts the executions of
`part[part_index]++` with `part_index = part_size`. -/
structure PartLoop where
  index : Nat
  part_index : Nat
  curr_color : Nat
  prev_color : Nat
  part : List Nat
  spill : Nat
deriving DecidableEq

/-- One execution of the body of the `for` loop, with its `index++`. -/
def part_loop_body (test_row : List Nat) (part_size : Nat) (v : PartLoop) : PartLoop :=
  let v1 : PartLoop :=
    if test_row.getD v.index 0 = v.prev_color then
      { v with curr_color := v.prev_color, prev_color := v.curr_color,
               part_index := v.part_index + 1 }
    else v
  if v1.part_index < part_size then
    { v1 with part := v1.part.modify (· + 1) v1.part_index, index := v1.index + 1 }
  else
    { v1 with spill := v1.spill + 1, index := v1.index + 1 }

/-- The `for` loop of `constract_row_structure_part`; `fuel` bounds the number
of iterations. -/
def part_loop (max_image_index : Nat) (test_row : List Nat) (part_size : Nat) :
    Nat → PartLoop → PartLoop
  | 0, v => v
  | fuel + 1, v =>
      if v.index < max_image_index ∧ v.part_index < part_size then
        part_loop max_image_index test_row part_size fuel (part_loop_body test_row part_size v)
      else v

/-- What one call of `constract_row_structure_part` produces: the returned
index, the run group, the increments that fell on `part[part_size]`, and the
value given to `part_filled`. -/
structure PartResult where
  index : Nat
  part : List Nat
  spill : Nat
  part_filled : Bool
deriving DecidableEq

/-- Member `constract_row_structure_part`.  The caller passes `part_filled` as
`false`; the result holds `true` exactly when the code assigns it. -/
def constract_row_structure_part (max_image_index : Nat) (test_row : List Nat)
    (beg_index first_color part_size : Nat) : PartResult :=
  let v := part_loop max_image_index test_row part_size (max_image_index - beg_index)
    { index := beg_index, part_index := 0, curr_color := first_color,
      prev_color := if first_color = black_color then white_color else black_color,
      part := List.replicate part_size 0, spill := 0 }
  let index := if v.part_index ≠ part_size then max_image_index else v.index
  { index := index, part := v.part, spill := v.spill,
    part_filled := decide (index < max_image_index) }

/-- The five run-group members, named as the pointer passed for `part`. -/
inductive RunGroup where
  | left_guards | middle_guards | right_guards | left_code | right_code
deriving DecidableEq

/-- Add `n` to slot 0 of a run group. -/
def bump (n : Nat) (part : List Nat) : List Nat := part.modify (· + n) 0

/-- Write the outcome of one segmenter call into the object: the run group
itself, and, when `adjacent`, the increments of `part[part_size]` into slot 0
of the member declared next. -/
def store_part (adjacent : Bool) (s : Barcode) (g : RunGroup) (r : PartResult) : Barcode :=
  match g with
  | .left_guards =>
      { s with left_guards := r.part,
               middle_guards := if adjacent then bump r.spill s.middle_guards else s.middle_guards }
  | .middle_guards =>
      { s with middle_guards := r.part,
               right_guards := if adjacent then bump r.spill s.right_guards else s.right_guards }
  | .right_guards =>
      { s with right_guards := r.part,
               left_code := if adjacent then bump r.spill s.left_code else s.left_code }
  | .left_code =>
      { s with left_code := r.part,
               right_code := if adjacent then bump r.spill s.right_code else s.right_code }
  | .right_code =>
      { s with right_code := r.part }

/-- Member `constract_row_structure`: the five-stage segmentation of one row. -/
def constract_row_structure (adjacent : Bool) (max_image_index : Nat) (s : Barcode)
    (test_row : List Nat) : Barcode :=
  let left_guards_beg := find_row_structure_part_beg max_image_index test_row 0 black_color
  let r1 := constract_row_structure_part max_image_index test_row left_guards_beg
    black_color left_guards_size
  let s1 := store_part adjacent s .left_guards r1
  let r2 := constract_row_structure_part max_image_index test_row r1.index
    white_color left_code_size
  let s2 := store_part adjacent s1 .left_code r2
  let r3 := constract_row_structure_part max_image_index test_row r2.index
    white_color middle_guards_size
  let s3 := store_part adjacent s2 .middle_guards r3
  let r4 := constract_row_structure_part max_image_index test_row r3.index
    black_color right_code_size
  let s4 := store_part adjacent s3 .right_code r4
  let r5 := constract_row_structure_part max_image_index test_row r4.index
    black_color right_guards_size
  let s5 := store_part adjacent s4 .right_guards r5
  if r1.part_filled && r2.part_filled && r3.part_filled && r4.part_filled && r5.part_filled then
    { s5 with has_barcode_structure := true }
  else s5

/-! ## Digit quantizer -/

/-- Cast `(int) x` of a `float`: truncation toward zero. -/
def truncToInt (x : ℚ) : Int := if 0 ≤ x then ⌊x⌋ else ⌈x⌉

/-- First `if`/`else if` block of `decode_single_number`: the values of
`(hl_0, hl_1)` after it, from the ratios `hl_0`, `hl_1`, `hl_2`. -/
def quantize_pair_0_1 (hl_0 hl_1 hl_2 : ℚ) : ℚ × ℚ :=
  let hl_0_1 := hl_0 + hl_1
  if hl_0 < 1 ∨ hl_1 < 1 then
    if hl_0 < 1 then (1, (truncToInt (hl_0_1 - 1) : ℚ))
    else if hl_1 < 1 then ((truncToInt (hl_0_1 - 1) : ℚ), 1)
    else (hl_0, hl_1)
  else if truncToInt hl_0_1 > truncToInt hl_0 + truncToInt hl_1 then
    if hl_0 - truncToInt hl_0 > hl_1 - truncToInt hl_1 then
      ((truncToInt hl_0 + 1 : Int), (truncToInt hl_1 : Int))
    else if hl_0 - truncToInt hl_0 < hl_1 - truncToInt hl_1 then
      ((truncToInt hl_0 : Int), (truncToInt hl_1 + 1 : Int))
    else if truncToInt (hl_1 + hl_2) > truncToInt hl_1 + truncToInt hl_2 then
      ((truncToInt hl_0 + 1 : Int), (truncToInt hl_1 : Int))
    else
      ((truncToInt hl_0 : Int), (truncToInt hl_1 + 1 : Int))
  else (hl_0, hl_1)

/-- Second `if`/`else if` block of `decode_single_number`: the values of
`(hl_2, hl_3)` after it. -/
def quantize_pair_2_3 (hl_2 hl_3 : ℚ) : ℚ × ℚ :=
  let hl_2_3 := hl_2 + hl_3
  if hl_2 < 1 ∨ hl_3 < 1 then
    if hl_2 < 1 then (1, (truncToInt (hl_2_3 - 1) : ℚ))
    else if hl_3 < 1 then ((truncToInt (hl_2_3 - 1) : ℚ), 1)
    else (hl_2, hl_3)
  else if truncToInt hl_2_3 > truncToInt hl_2 + truncToInt hl_3 then
    if hl_2 - truncToInt hl_2 > hl_3 - truncToInt hl_3 then
      ((truncToInt hl_2 + 1 : Int), (truncToInt hl_3 : Int))
    else
      ((truncToInt hl_2 : Int), (truncToInt hl_3 + 1 : Int))
  else (hl_2, hl_3)

/-- Member `decode_single_number` with exact division: the pattern code of four
run lengths at module width `h`. -/
@[irreducible]
def decode_single_number (h : ℚ) (l_0 l_1 l_2 l_3 : Int) : Int :=
  let hl_0 : ℚ := l_0 / h
  let hl_1 : ℚ := l_1 / h
  let hl_2 : ℚ := l_2 / h
  let hl_3 : ℚ := l_3 / h
  let p := quantize_pair_0_1 hl_0 hl_1 hl_2
  let q := quantize_pair_2_3 hl_2 hl_3
  truncToInt (min 4 p.1) * 1000 + truncToInt (min 4 p.2) * 100
    + truncToInt (min 4 q.1) * 10 + truncToInt (min 4 q.2)

/-! ## Digit and parity lookup -/

/-- Values of `i` in `for (i = 0; i < size; i += 4)`. -/
def code_indices (size : Nat) : List Nat := (List.range size).filter (fun i => i % 4 = 0)

/-- Sum `h += guards[i]` for `i < size`. -/
def guards_sum (guards : List Nat) (size : Nat) : Nat :=
  ((List.range size).map (fun i => guards.getD i 0)).sum

/-- Module width `h` computed at the top of `identify_barcode_number`. -/
def module_width (left_guards middle_guards right_guards : List Nat) : ℚ :=
  ((guards_sum left_guards left_guards_size + guards_sum middle_guards middle_guards_size
      + guards_sum right_guards right_guards_size : Nat) : ℚ)
    / ((left_guards_size + middle_guards_size + right_guards_size : Nat) : ℚ)

/-- Pattern code of the four runs `code[i .. i + 3]`. -/
def decode_code_at (h : ℚ) (code : List Nat) (i : Nat) : Int :=
  decode_single_number h (code.getD i 0) (code.getD (i + 1) 0) (code.getD (i + 2) 0)
    (code.getD (i + 3) 0)

/-- Left-code loop of `identify_barcode_number` over the remaining values of
`i`: the digit array, the parity string, and whether every lookup succeeded
(`false` is the early `return`). -/
def left_code_loop (h : ℚ) (left_code : List Nat) :
    List Nat → List Nat → List Char → List Nat × List Char × Bool
  | [], barcode_number, EAN_13 => (barcode_number, EAN_13, true)
  | i :: is, barcode_number, EAN_13 =>
      match LG_EAN_map.lookup (decode_code_at h left_code i) with
      | none => (barcode_number, EAN_13, false)
      | some got =>
          left_code_loop h left_code is (barcode_number.set (i / 4 + 1) got.1) (EAN_13 ++ [got.2])

/-- Right-code loop of `identify_barcode_number`. -/
def right_code_loop (h : ℚ) (right_code : List Nat) :
    List Nat → List Nat → List Nat × Bool
  | [], barcode_number => (barcode_number, true)
  | i :: is, barcode_number =>
      match R_EAN_map.lookup (decode_code_at h right_code i) with
      | none => (barcode_number, false)
      | some got => right_code_loop h right_code is (barcode_number.set (i / 4 + 7) got.1)

/-- Member `identify_barcode_number`. -/
def identify_barcode_number (s : Barcode) : Barcode :=
  if !s.has_barcode_structure then s
  else
    let h := module_width s.left_guards s.middle_guards s.right_guards
    let l := left_code_loop h s.left_code (code_indices left_code_size) s.barcode_number []
    if !l.2.2 then { s with barcode_number := l.1 }
    else
      let r := right_code_loop h s.right_code (code_indices right_code_size) l.1
      if !r.2 then { s with barcode_number := r.1 }
      else
        match EAN_13_map.lookup l.2.1 with
        | none => { s with barcode_number := r.1 }
        | some got => { s with barcode_number := r.1.set 0 got, is_identified := true }

/-! ## Checksum validator -/

/-- The sum `check_sum` accumulated by the loop of `check_control_number`. -/
def check_sum (barcode_number : List Nat) : Nat :=
  ((List.range 13).map (fun i => barcode_number.getD i 0 * check_sum_coeffs.getD i 0)).sum

/-- Member `check_control_number`. -/
def check_control_number (s : Barcode) : Barcode :=
  if !s.is_identified then s
  else if check_sum s.barcode_number % 10 = 0 then { s with is_correct := true }
  else s

/-! ## Multi-row driver -/

/-- Member `decode_row`. -/
def decode_row (adjacent : Bool) (max_image_index : Nat) (s : Barcode) (test_row : List Nat) :
    Barcode :=
  check_control_number (identify_barcode_number
    (constract_row_structure adjacent max_image_index s test_row))

/-- The `for` loop of `decode` over the rows still to try. -/
def decode_rows (adjacent : Bool) (max_image_index : Nat) : Barcode → List (List Nat) → Barcode
  | s, [] => s
  | s, test_row :: rest =>
      let s1 := decode_row adjacent max_image_index s test_row
      if s1.is_correct then s1
      else decode_rows adjacent max_image_index (clear_data s1) rest

/-- A single-channel image (`cv::Mat`): `cols` pixels per row, `data` the rows
from top to bottom. -/
structure Mat where
  cols : Nat
  data : List (List Nat)

/-- Constructor `Barcode (gray_im)` on a single-channel image: `max_image_index`
is `gray_im->cols`, then `decode ()` runs on the freshly initialised members. -/
def decode (adjacent : Bool) (image : Mat) : Barcode :=
  decode_rows adjacent image.cols Barcode.fresh image.data

/-! ## Scanlines used in the statements

The round-trip property speaks of the rendering of an EAN-13 symbol; the
definitions below build that input from the symbol tables.  They are not part
of the decoder. -/

/-- The four run widths, in modules, written in a pattern code. -/
def pattern_runs (code : Int) : List Nat :=
  [(code / 1000).toNat, (code / 100 % 10).toNat, (code / 10 % 10).toNat, (code % 10).toNat]

/-- Run widths of a left-half digit in the family `c` ('L' or 'G'). -/
def left_digit_runs (d : Nat) (c : Char) : List Nat :=
  match LG_EAN_map.find? (fun e => e.2 = (d, c)) with
  | some e => pattern_runs e.1
  | none => []

/-- Run widths of a right-half digit (family R). -/
def right_digit_runs (d : Nat) : List Nat :=
  match R_EAN_map.find? (fun e => e.2.1 = d) with
  | some e => pattern_runs e.1
  | none => []

/-- Parity string selected by the leading digit. -/
def parity_string (d : Nat) : List Char :=
  match EAN_13_map.find? (fun e => e.2 = d) with
  | some e => e.1
  | none => []

/-- The 59 run widths, in modules, of the EAN-13 symbol of the digits `d`:
guard 101, six left digits, guard 01010, six right digits, guard 101.  The
runs alternate in colour and the first one is black. -/
def ean13_runs (d : List Nat) : List Nat :=
  [1, 1, 1]
    ++ ((List.range 6).map (fun i =>
          left_digit_runs (d.getD (i + 1) 0) ((parity_string (d.getD 0 0)).getD i 'L'))).flatten
    ++ [1, 1, 1, 1, 1]
    ++ ((List.range 6).map (fun i => right_digit_runs (d.getD (i + 7) 0))).flatten
    ++ [1, 1, 1]

/-- Pixels of a sequence of runs of alternating colour, the first of colour `c`. -/
def pixels_of_runs : List Nat → Nat → List Nat
  | [], _ => []
  | n :: rest, c =>
      List.replicate n c ++ pixels_of_runs rest (if c = black_color then white_color else black_color)

/-- Noise-free scanline of the digits `d`: a white margin, the symbol with
every module `m` pixels wide, a white margin. -/
def ean13_scanline (d : List Nat) (m left_margin right_margin : Nat) : List Nat :=
  List.replicate left_margin white_color
    ++ pixels_of_runs ((ean13_runs d).map (· * m)) black_color
    ++ List.replicate right_margin white_color

/-- The one-row image made of a scanline. -/
def one_row (test_row : List Nat) : Mat := { cols := test_row.length, data := [test_row] }

/-- A scanline that is not a clean rendering: the symbol of `d` at `m` pixels
per module in which the first run of the left code, of the middle guard, of the
right code and of the right guard is one pixel wider. -/
def widened_scanline (d : List Nat) (m left_margin right_margin : Nat) : List Nat :=
  List.replicate left_margin white_color
    ++ pixels_of_runs
        (((((ean13_runs d).map (· * m)).modify (· + 1) 3).modify (· + 1) 27).modify (· + 1) 32
          |>.modify (· + 1) 56) black_color
    ++ List.replicate right_margin white_color

/-- Row of 199 pixels carrying 4006381333931, which the decoder reads. -/
def row_valid : List Nat := widened_scanline [4, 0, 0, 6, 3, 8, 1, 3, 3, 3, 9, 3, 1] 2 1 4

/-- Row of 199 pixels carrying 4006381333932, whose check digit is wrong. -/
def row_bad_checksum : List Nat := widened_scanline [4, 0, 0, 6, 3, 8, 1, 3, 3, 3, 9, 3, 2] 2 1 4

/-- Row of 199 pixels: one white pixel, 59 runs of two pixels starting with
black, 80 white pixels.  It has the run structure of a symbol and no digit. -/
def row_stripes : List Nat :=
  List.replicate 1 white_color ++ pixels_of_runs (List.replicate 59 2) black_color
    ++ List.replicate 80 white_color

/-! ## The segmenter with checked pixel reads

The same two functions, in which a read `test_row[index]` outside the pixels of
the scanline makes the call fail (`none`) instead of giving a pixel. -/

/-- Loop of `find_row_structure_part_beg`, the read checked. -/
def find_row_structure_part_beg_loop_checked (max_image_index : Nat) (test_row : List Nat)
    (part_color : Nat) : Nat → Nat → Option Nat
  | 0, _ => some max_image_index
  | fuel + 1, index =>
      if index < max_image_index then
        match test_row[index]? with
        | none => none
        | some pixel =>
            if pixel = part_color then some index
            else find_row_structure_part_beg_loop_checked max_image_index test_row part_color
              fuel (index + 1)
      else some max_image_index

/-- Member `find_row_structure_part_beg`, the read checked. -/
def find_row_structure_part_beg_checked (max_image_index : Nat) (test_row : List Nat)
    (beg_index part_color : Nat) : Option Nat :=
  find_row_structure_part_beg_loop_checked max_image_index test_row part_color
    (max_image_index - beg_index) beg_index

/-- The `for` loop of `constract_row_structure_part`, the read of each iteration
checked before the body runs. -/
def part_loop_checked (max_image_index : Nat) (test_row : List Nat) (part_size : Nat) :
    Nat → PartLoop → Option PartLoop
  | 0, v => some v
  | fuel + 1, v =>
      if v.index < max_image_index ∧ v.part_index < part_size then
        match test_row[v.index]? with
        | none => none
        | some _ =>
            part_loop_checked max_image_index test_row part_size fuel
              (part_loop_body test_row part_size v)
      else some v

/-- Member `constract_row_structure_part`, the reads checked. -/
def constract_row_structure_part_checked (max_image_index : Nat) (test_row : List Nat)
    (beg_index first_color part_size : Nat) : Option PartResult :=
  match part_loop_checked max_image_index test_row part_size (max_image_index - beg_index)
      { index := beg_index, part_index := 0, curr_color := first_color,
        prev_color := if first_color = black_color then white_color else black_color,
        part := List.replicate part_size 0, spill := 0 } with
  | none => none
  | some v =>
      let index := if v.part_index ≠ part_size then max_image_index else v.index
      some { index := index, part := v.part, spill := v.spill,
             part_filled := decide (index < max_image_index) }

/-! ## Further scanlines used in the statements -/

/-- Five pixels: black, white, black, white, white. -/
def row_guard : List Nat := [0, 255, 0, 255, 255]

/-- Row of 62 pixels alternating black and white, the first one black. -/
def row_pixels : List Nat := pixels_of_runs (List.replicate 62 1) black_color

/-- Row of 58 pixels alternating black and white, the first one black. -/
def row_short : List Nat := pixels_of_runs (List.replicate 58 1) black_color

/-- Row of 199 white pixels. -/
def row_white : List Nat := List.replicate 199 white_color

/-! ## The digit quantizer in binary32

`decode_single_number` above divides exactly.  The compiled code computes in
`float`, and the definitions below follow it operation by operation: every
conversion of an `int` to `float` and every `float` division,
addition and subtraction is rounded to the nearest binary32 value, ties to the
even significand (each operation rounded on its own, as with SSE arithmetic).
A finite `float` is the rational number it stands for.  Magnitudes from
`2 ^ 128` on, which binary32 turns into infinity, are outside the model, and so
is a cast `(int) x` of a value outside the range of `int`, which C++ leaves
undefined. -/

/-- Nearest integer, a tie going to the even one. -/
def round_half_even (y : ℚ) : ℤ :=
  if y - ⌊y⌋ < 1 / 2 then ⌊y⌋
  else if 1 / 2 < y - ⌊y⌋ then ⌊y⌋ + 1
  else if ⌊y⌋ % 2 = 0 then ⌊y⌋ else ⌊y⌋ + 1

/-- Two to the power `e`. -/
def pow2 (e : ℤ) : ℚ :=
  if 0 ≤ e then ((2 ^ e.toNat : ℕ) : ℚ) else 1 / ((2 ^ (-e).toNat : ℕ) : ℚ)

/-- Number of halvings that bring `n` below 2 (the binary logarithm of `n ≥ 1`,
rounded down), `fuel` bounding the count. -/
def log2_loop : ℕ → ℕ → ℕ
  | 0, _ => 0
  | fuel + 1, n => if 2 ≤ n then log2_loop fuel (n / 2) + 1 else 0

/-- The exponent `e` with `2 ^ e ≤ |x| < 2 ^ (e + 1)`, for `x ≠ 0`. -/
def binade (x : ℚ) : ℤ :=
  let e : ℤ := (log2_loop x.num.natAbs x.num.natAbs : ℤ) - (log2_loop x.den x.den : ℤ)
  if pow2 e ≤ (if x < 0 then -x else x) then e else e - 1

/-- Rounding of a rational to binary32: 24 significant bits, so the values of
the binade with exponent `e` are `2 ^ (e - 23)` apart; below `2 ^ (-126)` the
spacing stays `2 ^ (-149)`. -/
def round_f32 (x : ℚ) : ℚ :=
  if x = 0 then 0
  else
    let q : ℚ := pow2 (max (binade x) (-126) - 23)
    round_half_even (x / q) * q

/-- First `if`/`else if` block of `decode_single_number` in binary32: the values
of `(hl_0, hl_1)` after it. -/
def quantize_pair_0_1_float (hl_0 hl_1 hl_2 : ℚ) : ℚ × ℚ :=
  let hl_0_1 := round_f32 (hl_0 + hl_1)
  if hl_0 < 1 ∨ hl_1 < 1 then
    if hl_0 < 1 then (1, round_f32 (truncToInt (round_f32 (hl_0_1 - 1)) : ℤ))
    else if hl_1 < 1 then (round_f32 (truncToInt (round_f32 (hl_0_1 - 1)) : ℤ), 1)
    else (hl_0, hl_1)
  else if truncToInt hl_0_1 > truncToInt hl_0 + truncToInt hl_1 then
    if round_f32 (hl_0 - round_f32 (truncToInt hl_0 : ℤ))
        > round_f32 (hl_1 - round_f32 (truncToInt hl_1 : ℤ)) then
      (round_f32 (truncToInt hl_0 + 1 : ℤ), round_f32 (truncToInt hl_1 : ℤ))
    else if round_f32 (hl_0 - round_f32 (truncToInt hl_0 : ℤ))
        < round_f32 (hl_1 - round_f32 (truncToInt hl_1 : ℤ)) then
      (round_f32 (truncToInt hl_0 : ℤ), round_f32 (truncToInt hl_1 + 1 : ℤ))
    else if truncToInt (round_f32 (hl_1 + hl_2)) > truncToInt hl_1 + truncToInt hl_2 then
      (round_f32 (truncToInt hl_0 + 1 : ℤ), round_f32 (truncToInt hl_1 : ℤ))
    else
      (round_f32 (truncToInt hl_0 : ℤ), round_f32 (truncToInt hl_1 + 1 : ℤ))
  else (hl_0, hl_1)

/-- Second `if`/`else if` block of `decode_single_number` in binary32: the values
of `(hl_2, hl_3)` after it. -/
def quantize_pair_2_3_float (hl_2 hl_3 : ℚ) : ℚ × ℚ :=
  let hl_2_3 := round_f32 (hl_2 + hl_3)
  if hl_2 < 1 ∨ hl_3 < 1 then
    if hl_2 < 1 then (1, round_f32 (truncToInt (round_f32 (hl_2_3 - 1)) : ℤ))
    else if hl_3 < 1 then (round_f32 (truncToInt (round_f32 (hl_2_3 - 1)) : ℤ), 1)
    else (hl_2, hl_3)
  else if truncToInt hl_2_3 > truncToInt hl_2 + truncToInt hl_3 then
    if round_f32 (hl_2 - round_f32 (truncToInt hl_2 : ℤ))
        > round_f32 (hl_3 - round_f32 (truncToInt hl_3 : ℤ)) then
      (round_f32 (truncToInt hl_2 + 1 : ℤ), round_f32 (truncToInt hl_3 : ℤ))
    else
      (round_f32 (truncToInt hl_2 : ℤ), round_f32 (truncToInt hl_3 + 1 : ℤ))
  else (hl_2, hl_3)

/-- The ratio `l / h` as `decode_single_number` computes it: the `int` is
converted to `float`, then divided by the `float` `h`. -/
def ratio_float (h : ℚ) (l : ℤ) : ℚ := round_f32 (round_f32 (l : ℚ) / h)

/-- The four components `(int) hl_0`, `(int) hl_1`, `(int) hl_2`, `(int) hl_3` of
the `return` statement of `decode_single_number`, in binary32, for a `float`
`h`. -/
def quantized_components_float (h : ℚ) (l_0 l_1 l_2 l_3 : ℤ) : ℤ × ℤ × ℤ × ℤ :=
  let p := quantize_pair_0_1_float (ratio_float h l_0) (ratio_float h l_1) (ratio_float h l_2)
  let q := quantize_pair_2_3_float (ratio_float h l_2) (ratio_float h l_3)
  (truncToInt (min 4 p.1), truncToInt (min 4 p.2), truncToInt (min 4 q.1),
    truncToInt (min 4 q.2))

/-- Member `decode_single_number` in binary32, for a `float` `h`. -/
def decode_single_number_float (h : ℚ) (l_0 l_1 l_2 l_3 : ℤ) : ℤ :=
  (quantized_components_float h l_0 l_1 l_2 l_3).1 * 1000
    + (quantized_components_float h l_0 l_1 l_2 l_3).2.1 * 100
    + (quantized_components_float h l_0 l_1 l_2 l_3).2.2.1 * 10
    + (quantized_components_float h l_0 l_1 l_2 l_3).2.2.2

/-! ## The loop bounds are enough

Both segmenter loops advance `index` by one per iteration and stop at
`max_image_index`; the bound `max_image_index - beg_index` they are run with is
never what ends them. -/

theorem find_row_structure_part_beg_loop_fuel (n : Nat) (test_row : List Nat) (part_color : Nat)
    (fuel : Nat) :
    ∀ index : Nat, n - index ≤ fuel →
      find_row_structure_part_beg_loop n test_row part_color (fuel + 1) index
        = find_row_structure_part_beg_loop n test_row part_color fuel index := by
  induction fuel with
  | zero =>
      intro index h
      have : ¬ index < n := by omega
      simp [find_row_structure_part_beg_loop, this]
  | succ fuel ih =>
      intro index h
      rw [find_row_structure_part_beg_loop]
      conv_rhs => rw [find_row_structure_part_beg_loop]
      rw [ih (index + 1) (by omega)]

theorem part_loop_body_index (test_row : List Nat) (part_size : Nat) (v : PartLoop) :
    (part_loop_body test_row part_size v).index = v.index + 1 := by
  unfold part_loop_body
  simp only []
  repeat' split
  all_goals rfl

theorem part_loop_fuel (n : Nat) (test_row : List Nat) (part_size : Nat) (fuel : Nat) :
    ∀ v : PartLoop, n - v.index ≤ fuel →
      part_loop n test_row part_size (fuel + 1) v = part_loop n test_row part_size fuel v := by
  induction fuel with
  | zero =>
      intro v h
      have : ¬ v.index < n := by omega
      simp [part_loop, this]
  | succ fuel ih =>
      intro v h
      rw [part_loop]
      conv_rhs => rw [part_loop]
      rw [ih (part_loop_body test_row part_size v) (by rw [part_loop_body_index]; omega)]

/-! ## Frame lemmas: which members each stage touches -/

theorem store_part_flags (adjacent : Bool) (s : Barcode) (g : RunGroup) (r : PartResult) :
    (store_part adjacent s g r).has_barcode_structure = s.has_barcode_structure
      ∧ (store_part adjacent s g r).is_identified = s.is_identified
      ∧ (store_part adjacent s g r).is_correct = s.is_correct
      ∧ (store_part adjacent s g r).barcode_number = s.barcode_number := by
  cases g <;> simp [store_part]

theorem constract_row_structure_frame (adjacent : Bool) (n : Nat) (s : Barcode)
    (test_row : List Nat) :
    (constract_row_structure adjacent n s test_row).is_identified = s.is_identified
      ∧ (constract_row_structure adjacent n s test_row).is_correct = s.is_correct
      ∧ (constract_row_structure adjacent n s test_row).barcode_number = s.barcode_number := by
  unfold constract_row_structure
  simp only []
  split <;> simp [store_part]

theorem identify_barcode_number_is_correct (s : Barcode) :
    (identify_barcode_number s).is_correct = s.is_correct := by
  unfold identify_barcode_number
  simp only []
  repeat' split
  all_goals rfl

theorem check_control_number_barcode_number (s : Barcode) :
    (check_control_number s).barcode_number = s.barcode_number := by
  unfold check_control_number
  repeat' split
  all_goals rfl

theorem check_control_number_is_correct (s : Barcode)
    (h : (check_control_number s).is_correct = true) :
    s.is_correct = true ∨ check_sum s.barcode_number % 10 = 0 := by
  unfold check_control_number at h
  split at h
  · exact Or.inl h
  · split at h
    · right; assumption
    · exact Or.inl h

/-- A row attempt started with `is_correct` unset ends with it set only on a
digit array that passes the checksum. -/
theorem decode_row_is_correct (adjacent : Bool) (n : Nat) (s : Barcode) (test_row : List Nat)
    (hs : s.is_correct = false)
    (h : (decode_row adjacent n s test_row).is_correct = true) :
    check_sum (decode_row adjacent n s test_row).barcode_number % 10 = 0 := by
  unfold decode_row at h ⊢
  rw [check_control_number_barcode_number]
  rcases check_control_number_is_correct _ h with h1 | h1
  · rw [identify_barcode_number_is_correct, (constract_row_structure_frame _ _ _ _).2.1, hs] at h1
    exact absurd h1 (by simp)
  · exact h1

theorem clear_data_is_correct (s : Barcode) : (clear_data s).is_correct = s.is_correct := rfl

theorem clear_data_barcode_number (s : Barcode) :
    (clear_data s).barcode_number = List.replicate barcode_number_size 0 := rfl

theorem decode_rows_is_correct (adjacent : Bool) (n : Nat) (rows : List (List Nat)) :
    ∀ s : Barcode, s.is_correct = false →
      (decode_rows adjacent n s rows).is_correct = true →
      check_sum (decode_rows adjacent n s rows).barcode_number % 10 = 0 := by
  induction rows with
  | nil => intro s hs h; simp [decode_rows, hs] at h
  | cons r rest ih =>
      intro s hs h
      simp only [decode_rows] at h ⊢
      by_cases hc : (decode_row adjacent n s r).is_correct = true
      · simp only [hc, if_true] at h ⊢
        exact decode_row_is_correct adjacent n s r hs hc
      · simp only [hc] at h ⊢
        simp only [Bool.false_eq_true, if_false] at h ⊢
        exact ih _ (by rw [clear_data_is_correct]; simpa using hc) h

theorem decode_rows_not_decoded (adjacent : Bool) (n : Nat) (rows : List (List Nat)) :
    ∀ s : Barcode, s.barcode_number = List.replicate barcode_number_size 0 →
      (decode_rows adjacent n s rows).is_correct = false →
      (decode_rows adjacent n s rows).barcode_number = List.replicate barcode_number_size 0 := by
  induction rows with
  | nil => intro s hs _; simpa [decode_rows] using hs
  | cons r rest ih =>
      intro s _ h
      simp only [decode_rows] at h ⊢
      by_cases hc : (decode_row adjacent n s r).is_correct = true
      · simp only [hc, if_true] at h
        simp at h
      · simp only [hc] at h ⊢
        simp only [Bool.false_eq_true, if_false] at h ⊢
        exact ih _ (clear_data_barcode_number _) h

theorem decode_rows_append (adjacent : Bool) (n : Nat) (A B : List (List Nat)) :
    ∀ s : Barcode, (decode_rows adjacent n s A).is_correct = true → s.is_correct = false →
      decode_rows adjacent n s (A ++ B) = decode_rows adjacent n s A := by
  induction A with
  | nil => intro s h hs; simp [decode_rows, hs] at h
  | cons r rest ih =>
      intro s h _
      simp only [decode_rows, List.cons_append] at h ⊢
      by_cases hc : (decode_row adjacent n s r).is_correct = true
      · simp only [hc, if_true]
      · simp only [hc] at h ⊢
        simp only [Bool.false_eq_true, if_false] at h ⊢
        exact ih _ h (by rw [clear_data_is_correct]; simpa using hc)

theorem check_sum_eq (d : List Nat) :
    check_sum d =
      d.getD 0 0 * 1 + d.getD 1 0 * 3 + d.getD 2 0 * 1 + d.getD 3 0 * 3 + d.getD 4 0 * 1
        + d.getD 5 0 * 3 + d.getD 6 0 * 1 + d.getD 7 0 * 3 + d.getD 8 0 * 1 + d.getD 9 0 * 3
        + d.getD 10 0 * 1 + d.getD 11 0 * 3 + d.getD 12 0 * 1 := by
  simp [check_sum, check_sum_coeffs, List.range_succ]
  ring

/-! ## The digit array keeps its 13 slots -/

theorem left_code_loop_length (h : ℚ) (code : List Nat) (is : List Nat) :
    ∀ (bn : List Nat) (e : List Char), (left_code_loop h code is bn e).1.length = bn.length := by
  induction is with
  | nil => intro bn e; rfl
  | cons i rest ih =>
      intro bn e
      simp only [left_code_loop]
      generalize LG_EAN_map.lookup (decode_code_at h code i) = o
      cases o with
      | none => rfl
      | some got => simp only []; rw [ih]; simp

theorem right_code_loop_length (h : ℚ) (code : List Nat) (is : List Nat) :
    ∀ bn : List Nat, (right_code_loop h code is bn).1.length = bn.length := by
  induction is with
  | nil => intro bn; rfl
  | cons i rest ih =>
      intro bn
      simp only [right_code_loop]
      generalize R_EAN_map.lookup (decode_code_at h code i) = o
      cases o with
      | none => rfl
      | some got => simp only []; rw [ih]; simp

theorem identify_barcode_number_length (s : Barcode) :
    (identify_barcode_number s).barcode_number.length = s.barcode_number.length := by
  unfold identify_barcode_number
  simp only []
  repeat' split
  all_goals simp [left_code_loop_length, right_code_loop_length]

theorem decode_row_length (adjacent : Bool) (n : Nat) (s : Barcode) (test_row : List Nat) :
    (decode_row adjacent n s test_row).barcode_number.length = s.barcode_number.length := by
  unfold decode_row
  rw [check_control_number_barcode_number, identify_barcode_number_length,
    (constract_row_structure_frame _ _ _ _).2.2]

theorem decode_rows_length (adjacent : Bool) (n : Nat) (rows : List (List Nat)) :
    ∀ s : Barcode, s.barcode_number.length = barcode_number_size →
      (decode_rows adjacent n s rows).barcode_number.length = barcode_number_size := by
  induction rows with
  | nil => intro s hs; simpa [decode_rows] using hs
  | cons r rest ih =>
      intro s hs
      simp only [decode_rows]
      split
      · rw [decode_row_length]; exact hs
      · exact ih _ (by simp [clear_data])

/-! ## Claims about the multi-row driver -/

/-- C2. Whenever the decoder finishes with `is_decoded ()` true, it holds 13
digits whose sum with weights 1,3,1,3,...,1 is divisible by 10. -/
theorem decode_checksum (adjacent : Bool) (image : Mat)
    (h : (decode adjacent image).is_decoded = true) :
    (decode adjacent image).barcode_number.length = 13
      ∧ ((decode adjacent image).barcode_number.getD 0 0 * 1
          + (decode adjacent image).barcode_number.getD 1 0 * 3
          + (decode adjacent image).barcode_number.getD 2 0 * 1
          + (decode adjacent image).barcode_number.getD 3 0 * 3
          + (decode adjacent image).barcode_number.getD 4 0 * 1
          + (decode adjacent image).barcode_number.getD 5 0 * 3
          + (decode adjacent image).barcode_number.getD 6 0 * 1
          + (decode adjacent image).barcode_number.getD 7 0 * 3
          + (decode adjacent image).barcode_number.getD 8 0 * 1
          + (decode adjacent image).barcode_number.getD 9 0 * 3
          + (decode adjacent image).barcode_number.getD 10 0 * 1
          + (decode adjacent image).barcode_number.getD 11 0 * 3
          + (decode adjacent image).barcode_number.getD 12 0 * 1) % 10 = 0 := by
  refine ⟨decode_rows_length adjacent image.cols image.data Barcode.fresh rfl, ?_⟩
  rw [← check_sum_eq]
  exact decode_rows_is_correct adjacent image.cols image.data Barcode.fresh rfl h

set_option maxRecDepth 100000 in
theorem decode_checksum_witness :
    (decode false (one_row row_valid)).is_decoded = true
      ∧ (decode false (one_row row_valid)).barcode_number = [4, 0, 0, 6, 3, 8, 1, 3, 3, 3, 9, 3, 1]
      ∧ (decode false (one_row row_valid)).barcode_number.length = 13
      ∧ ((decode false (one_row row_valid)).barcode_number.getD 0 0 * 1
          + (decode false (one_row row_valid)).barcode_number.getD 1 0 * 3
          + (decode false (one_row row_valid)).barcode_number.getD 2 0 * 1
          + (decode false (one_row row_valid)).barcode_number.getD 3 0 * 3
          + (decode false (one_row row_valid)).barcode_number.getD 4 0 * 1
          + (decode false (one_row row_valid)).barcode_number.getD 5 0 * 3
          + (decode false (one_row row_valid)).barcode_number.getD 6 0 * 1
          + (decode false (one_row row_valid)).barcode_number.getD 7 0 * 3
          + (decode false (one_row row_valid)).barcode_number.getD 8 0 * 1
          + (decode false (one_row row_valid)).barcode_number.getD 9 0 * 3
          + (decode false (one_row row_valid)).barcode_number.getD 10 0 * 1
          + (decode false (one_row row_valid)).barcode_number.getD 11 0 * 3
          + (decode false (one_row row_valid)).barcode_number.getD 12 0 * 1) % 10 = 0 :=
  ⟨by decide!, by decide!, decode_checksum false (one_row row_valid) (by decide!)⟩

/-- C4. If the decoder reports success on the rows `A`, it reports success with
the same digits on `A` followed by any further rows `B`. -/
theorem first_success_wins (adjacent : Bool) (cols : Nat) (A B : List (List Nat))
    (h : (decode adjacent { cols := cols, data := A }).is_decoded = true) :
    (decode adjacent { cols := cols, data := A ++ B }).is_decoded = true
      ∧ (decode adjacent { cols := cols, data := A ++ B }).barcode_number
          = (decode adjacent { cols := cols, data := A }).barcode_number
      ∧ get_barcode_number (decode adjacent { cols := cols, data := A ++ B })
          = get_barcode_number (decode adjacent { cols := cols, data := A }) := by
  have e : decode adjacent { cols := cols, data := A ++ B }
      = decode adjacent { cols := cols, data := A } :=
    decode_rows_append adjacent cols A B Barcode.fresh h rfl
  rw [e]
  exact ⟨h, rfl, rfl⟩

set_option maxRecDepth 100000 in
theorem first_success_wins_witness :
    (decode true { cols := 199, data := [row_stripes, row_valid] }).is_decoded = true
      ∧ (decode true
          { cols := 199, data := [row_stripes, row_valid] ++ [row_bad_checksum, row_stripes] }).is_decoded
          = true
      ∧ (decode true
          { cols := 199, data := [row_stripes, row_valid] ++ [row_bad_checksum, row_stripes] }).barcode_number
          = (decode true { cols := 199, data := [row_stripes, row_valid] }).barcode_number
      ∧ get_barcode_number (decode true
          { cols := 199, data := [row_stripes, row_valid] ++ [row_bad_checksum, row_stripes] })
          = get_barcode_number (decode true { cols := 199, data := [row_stripes, row_valid] }) :=
  ⟨by decide!, first_success_wins true 199 [row_stripes, row_valid] [row_bad_checksum, row_stripes]
    (by decide!)⟩

/-- C6. If the decoder finishes with `is_decoded ()` false, all 13 entries of the
digit array are 0 and `get_barcode_number ()` returns 0. -/
theorem all_or_nothing (adjacent : Bool) (image : Mat)
    (h : (decode adjacent image).is_decoded = false) :
    (decode adjacent image).barcode_number = [0, 0, 0, 0, 0, 0, 0, 0, 0, 0, 0, 0, 0]
      ∧ get_barcode_number (decode adjacent image) = 0 := by
  have e : (decode adjacent image).barcode_number = List.replicate barcode_number_size 0 :=
    decode_rows_not_decoded adjacent image.cols image.data Barcode.fresh rfl h
  refine ⟨e, ?_⟩
  unfold get_barcode_number
  rw [e]
  rfl

set_option maxRecDepth 100000 in
theorem all_or_nothing_witness :
    (decode_row true 199 Barcode.fresh row_bad_checksum).barcode_number
        = [4, 0, 0, 6, 3, 8, 1, 3, 3, 3, 9, 3, 2]
      ∧ (decode true (one_row row_bad_checksum)).is_decoded = false
      ∧ (decode true (one_row row_bad_checksum)).barcode_number
          = [0, 0, 0, 0, 0, 0, 0, 0, 0, 0, 0, 0, 0]
      ∧ get_barcode_number (decode true (one_row row_bad_checksum)) = 0 :=
  ⟨by decide!, by decide!, all_or_nothing true (one_row row_bad_checksum) (by decide!)⟩

/-! ## A row attempt as a function of the flags and digits it starts from -/

/-- The segmentation writes all five run groups anew: started from any state,
it differs from the one started on fresh members only in the members it does
not write and in the flag it can only raise. -/
theorem constract_row_structure_eq (adjacent : Bool) (n : Nat) (s : Barcode)
    (test_row : List Nat) :
    constract_row_structure adjacent n s test_row =
      { constract_row_structure adjacent n Barcode.fresh test_row with
        has_barcode_structure := s.has_barcode_structure
          || (constract_row_structure adjacent n Barcode.fresh test_row).has_barcode_structure
        is_identified := s.is_identified
        is_correct := s.is_correct
        barcode_number := s.barcode_number } := by
  unfold constract_row_structure
  simp only []
  cases adjacent <;> split <;> simp [store_part, Barcode.fresh]

/-- Identification reads the flags `is_identified` and `is_correct` nowhere: it
writes digits `bn` and raises `is_identified` exactly when `ok`, both fixed by
the other members. -/
theorem identify_barcode_number_eq (c : Barcode) :
    ∃ (bn : List Nat) (ok : Bool), ∀ x y : Bool,
      identify_barcode_number { c with is_identified := x, is_correct := y } =
        { c with barcode_number := bn, is_identified := x || ok, is_correct := y } := by
  obtain ⟨l, hl⟩ : ∃ l, l = left_code_loop
      (module_width c.left_guards c.middle_guards c.right_guards) c.left_code
      (code_indices left_code_size) c.barcode_number [] := ⟨_, rfl⟩
  obtain ⟨r, hr⟩ : ∃ r, r = right_code_loop
      (module_width c.left_guards c.middle_guards c.right_guards) c.right_code
      (code_indices right_code_size) l.1 := ⟨_, rfl⟩
  by_cases hs : c.has_barcode_structure = true
  · by_cases hl2 : l.2.2 = true
    · by_cases hr2 : r.2 = true
      · cases hp : EAN_13_map.lookup l.2.1 with
        | none =>
            refine ⟨r.1, false, fun x y => ?_⟩
            subst hr
            subst hl
            simp [identify_barcode_number, hs, hl2, hr2, hp]
        | some got =>
            refine ⟨r.1.set 0 got, true, fun x y => ?_⟩
            subst hr
            subst hl
            simp [identify_barcode_number, hs, hl2, hr2, hp]
      · refine ⟨r.1, false, fun x y => ?_⟩
        subst hr
        subst hl
        simp [identify_barcode_number, hs, hl2, hr2]
    · refine ⟨l.1, false, fun x y => ?_⟩
      subst hl
      simp [identify_barcode_number, hs, hl2]
  · refine ⟨c.barcode_number, false, fun x y => ?_⟩
    simp [identify_barcode_number, hs]

/-- A second attempt on the same scanline after `clear_data` ends in the state
the first attempt ended in. -/
theorem decode_row_again (adjacent : Bool) (n : Nat) (test_row : List Nat) :
    decode_row adjacent n (clear_data (decode_row adjacent n Barcode.fresh test_row)) test_row
      = decode_row adjacent n Barcode.fresh test_row := by
  unfold decode_row
  rw [constract_row_structure_eq adjacent n (clear_data _) test_row]
  generalize hc : constract_row_structure adjacent n Barcode.fresh test_row = c
  have hi : c.is_identified = false := by
    rw [← hc, (constract_row_structure_frame _ _ _ _).1]; rfl
  have hk : c.is_correct = false := by
    rw [← hc, (constract_row_structure_frame _ _ _ _).2.1]; rfl
  have hb : c.barcode_number = List.replicate barcode_number_size 0 := by
    rw [← hc, (constract_row_structure_frame _ _ _ _).2.2]; rfl
  obtain ⟨bn, ok, hid⟩ := identify_barcode_number_eq c
  cases c with
  | mk lg mg rg lc rc hbs idn cor num =>
    simp only at hi hk hb hid
    subst hi hk hb
    have e0 := hid false false
    simp only [Bool.false_or] at e0
    rw [e0]
    cases ok <;> by_cases hsum : check_sum bn % 10 = 0 <;>
      simp [check_control_number, clear_data, hsum, hid]

/-- C7. Decoding the two-row image `[r, r]` ends in the state that decoding the
one-row image `[r]` ends in: same success flag, same 13 digits; and a second
attempt on `r` after the reset ends as the first attempt did. -/
theorem repeated_scanline (adjacent : Bool) (cols : Nat) (r : List Nat) :
    (decode adjacent { cols := cols, data := [r, r] }).is_decoded
        = (decode adjacent { cols := cols, data := [r] }).is_decoded
      ∧ (decode adjacent { cols := cols, data := [r, r] }).barcode_number
        = (decode adjacent { cols := cols, data := [r] }).barcode_number
      ∧ decode_row adjacent cols (clear_data (decode_row adjacent cols Barcode.fresh r)) r
        = decode_row adjacent cols Barcode.fresh r := by
  have e : decode adjacent { cols := cols, data := [r, r] }
      = decode adjacent { cols := cols, data := [r] } := by
    simp only [decode, decode_rows]
    by_cases hc : (decode_row adjacent cols Barcode.fresh r).is_correct = true
    · simp [hc]
    · simp [hc, decode_row_again]
  rw [e]
  exact ⟨rfl, rfl, decode_row_again adjacent cols r⟩

/-! ## The decoder on concrete rows -/

set_option maxRecDepth 100000 in
/-- C1, evaluated. 4006381333931 has a valid check digit; its noise-free
scanline (margins of 2 pixels) is not decoded at 1, 2 or 3 pixels per module. -/
theorem round_trip_fails :
    check_sum [4, 0, 0, 6, 3, 8, 1, 3, 3, 3, 9, 3, 1] % 10 = 0
      ∧ ∀ adjacent : Bool,
          (decode adjacent
            (one_row (ean13_scanline [4, 0, 0, 6, 3, 8, 1, 3, 3, 3, 9, 3, 1] 1 2 2))).is_decoded
            = false
          ∧ (decode adjacent
            (one_row (ean13_scanline [4, 0, 0, 6, 3, 8, 1, 3, 3, 3, 9, 3, 1] 2 2 2))).is_decoded
            = false
          ∧ (decode adjacent
            (one_row (ean13_scanline [4, 0, 0, 6, 3, 8, 1, 3, 3, 3, 9, 3, 1] 3 2 2))).is_decoded
            = false := by
  decide!

set_option maxRecDepth 100000 in
/-- C3, evaluated. In the image of the rows `row_bad_checksum`, `row_stripes`,
`row_valid`, rows 0 and 1 alone are not decoded and row 2 alone is decoded to
4006381333931, yet the image is reported decoded with thirteen zeros. -/
theorem row_independence_fails :
    (row_bad_checksum.length = 199 ∧ row_stripes.length = 199 ∧ row_valid.length = 199)
    ∧ ∀ adjacent : Bool,
      (decode adjacent { cols := 199, data := [row_bad_checksum] }).is_decoded = false
        ∧ (decode adjacent { cols := 199, data := [row_stripes] }).is_decoded = false
        ∧ (decode adjacent { cols := 199, data := [row_valid] }).is_decoded = true
        ∧ (decode adjacent { cols := 199, data := [row_valid] }).barcode_number
            = [4, 0, 0, 6, 3, 8, 1, 3, 3, 3, 9, 3, 1]
        ∧ (decode adjacent
            { cols := 199, data := [row_bad_checksum, row_stripes, row_valid] }).is_decoded = true
        ∧ (decode adjacent
            { cols := 199, data := [row_bad_checksum, row_stripes, row_valid] }).barcode_number
            = [0, 0, 0, 0, 0, 0, 0, 0, 0, 0, 0, 0, 0] := by
  decide!

set_option maxRecDepth 100000 in
/-- C5, evaluated. After one failed attempt on `row_bad_checksum` and the reset,
the run groups and the digits are those of a fresh decoder, but
`has_barcode_structure` and `is_identified` are still set. -/
theorem reset_keeps_flags :
    row_bad_checksum.length = 199
    ∧ ∀ adjacent : Bool,
      (decode_row adjacent 199 Barcode.fresh row_bad_checksum).is_correct = false
        ∧ clear_data (decode_row adjacent 199 Barcode.fresh row_bad_checksum)
            = { Barcode.fresh with has_barcode_structure := true, is_identified := true }
        ∧ clear_data (decode_row adjacent 199 Barcode.fresh row_bad_checksum) ≠ Barcode.fresh := by
  decide!

/-! ## Truncation toward zero -/

theorem truncToInt_intCast (n : ℤ) : truncToInt (n : ℚ) = n := by
  unfold truncToInt
  split <;> simp

theorem truncToInt_natCast (n : ℕ) : truncToInt (n : ℚ) = n := by
  have := truncToInt_intCast (n : ℤ)
  simpa using this

/-- Above `-1` the truncation is non-negative, and it reaches 1 exactly when
the argument does. -/
theorem truncToInt_above_neg_one (y : ℚ) (hy : -1 < y) :
    0 ≤ truncToInt y ∧ (1 ≤ truncToInt y ↔ 1 ≤ y) := by
  unfold truncToInt
  split
  next h0 =>
    refine ⟨Int.floor_nonneg.mpr h0, ?_⟩
    rw [Int.le_floor]
    simp
  next h0 =>
    have hlt : y < 0 := lt_of_not_ge h0
    have hc : ⌈y⌉ = 0 := by
      rw [Int.ceil_eq_iff]
      constructor
      · simpa using hy
      · simpa using hlt.le
    rw [hc]
    constructor
    · exact le_refl _
    · constructor
      · intro h; omega
      · intro h; linarith

/-- The final clamp `std::min (4.f, x)` and cast of a value above `-1`. -/
theorem clamp_range (x : ℚ) (hx : -1 < x) :
    0 ≤ truncToInt (min 4 x) ∧ truncToInt (min 4 x) ≤ 4 ∧ (1 ≤ truncToInt (min 4 x) ↔ 1 ≤ x) := by
  have hm : -1 < min 4 x := lt_min (by norm_num) hx
  obtain ⟨h0, h1⟩ := truncToInt_above_neg_one (min 4 x) hm
  refine ⟨h0, ?_, ?_⟩
  · by_contra hcon
    have h5 : (5 : ℤ) ≤ truncToInt (min 4 x) := by omega
    unfold truncToInt at h5
    split at h5
    · rw [Int.le_floor] at h5
      have : min 4 x ≤ 4 := min_le_left _ _
      have h5' : (5 : ℚ) ≤ min 4 x := by exact_mod_cast h5
      linarith
    next hneg =>
      have hlt : min 4 x < 0 := lt_of_not_ge hneg
      have : ⌈min 4 x⌉ ≤ 0 := by
        rw [Int.ceil_le]; simpa using hlt.le
      omega
  · rw [h1]
    constructor
    · intro h; exact le_trans h (min_le_right _ _)
    · intro h; exact le_min (by norm_num) h

/-! ## The two pair blocks of the quantizer -/

/-- The three ways a pair block can end: first ratio forced to 1, second ratio
forced to 1, or both ratios at least 1 and each left as is, truncated, or
truncated and raised by one. -/
theorem quantize_pair_0_1_cases (a b c : ℚ) :
    (a < 1 ∧ quantize_pair_0_1 a b c = (1, (truncToInt (a + b - 1) : ℚ)))
      ∨ (1 ≤ a ∧ b < 1 ∧ quantize_pair_0_1 a b c = ((truncToInt (a + b - 1) : ℚ), 1))
      ∨ (1 ≤ a ∧ 1 ≤ b
          ∧ ((quantize_pair_0_1 a b c).1 = a ∨ (quantize_pair_0_1 a b c).1 = (truncToInt a : ℚ)
              ∨ (quantize_pair_0_1 a b c).1 = ((truncToInt a + 1 : ℤ) : ℚ))
          ∧ ((quantize_pair_0_1 a b c).2 = b ∨ (quantize_pair_0_1 a b c).2 = (truncToInt b : ℚ)
              ∨ (quantize_pair_0_1 a b c).2 = ((truncToInt b + 1 : ℤ) : ℚ))) := by
  unfold quantize_pair_0_1
  by_cases ha : a < 1
  · left
    simp [ha]
  · right
    have ha1 : 1 ≤ a := not_lt.mp ha
    by_cases hb : b < 1
    · left
      simp [ha, hb, ha1]
    · right
      have hb1 : 1 ≤ b := not_lt.mp hb
      refine ⟨ha1, hb1, ?_⟩
      simp only [ha, hb, or_self, if_false]
      repeat' split
      all_goals simp

theorem quantize_pair_2_3_cases (a b : ℚ) :
    (a < 1 ∧ quantize_pair_2_3 a b = (1, (truncToInt (a + b - 1) : ℚ)))
      ∨ (1 ≤ a ∧ b < 1 ∧ quantize_pair_2_3 a b = ((truncToInt (a + b - 1) : ℚ), 1))
      ∨ (1 ≤ a ∧ 1 ≤ b
          ∧ ((quantize_pair_2_3 a b).1 = a ∨ (quantize_pair_2_3 a b).1 = (truncToInt a : ℚ)
              ∨ (quantize_pair_2_3 a b).1 = ((truncToInt a + 1 : ℤ) : ℚ))
          ∧ ((quantize_pair_2_3 a b).2 = b ∨ (quantize_pair_2_3 a b).2 = (truncToInt b : ℚ)
              ∨ (quantize_pair_2_3 a b).2 = ((truncToInt b + 1 : ℤ) : ℚ))) := by
  unfold quantize_pair_2_3
  by_cases ha : a < 1
  · left
    simp [ha]
  · right
    have ha1 : 1 ≤ a := not_lt.mp ha
    by_cases hb : b < 1
    · left
      simp [ha, hb, ha1]
    · right
      have hb1 : 1 ≤ b := not_lt.mp hb
      refine ⟨ha1, hb1, ?_⟩
      simp only [ha, hb, or_self, if_false]
      repeat' split
      all_goals simp

/-- Range of the two clamped components of a pair, from the way its block ended. -/
theorem pair_components_range (a b : ℚ) (p : ℚ × ℚ) (ha : 0 < a) (hb : 0 < b)
    (hp : (a < 1 ∧ p = (1, (truncToInt (a + b - 1) : ℚ)))
      ∨ (1 ≤ a ∧ b < 1 ∧ p = ((truncToInt (a + b - 1) : ℚ), 1))
      ∨ (1 ≤ a ∧ 1 ≤ b
          ∧ (p.1 = a ∨ p.1 = (truncToInt a : ℚ) ∨ p.1 = ((truncToInt a + 1 : ℤ) : ℚ))
          ∧ (p.2 = b ∨ p.2 = (truncToInt b : ℚ) ∨ p.2 = ((truncToInt b + 1 : ℤ) : ℚ)))) :
    (0 ≤ truncToInt (min 4 p.1) ∧ truncToInt (min 4 p.1) ≤ 4)
      ∧ (0 ≤ truncToInt (min 4 p.2) ∧ truncToInt (min 4 p.2) ≤ 4)
      ∧ ((1 ≤ truncToInt (min 4 p.1) ∧ 1 ≤ truncToInt (min 4 p.2)) ↔ 2 ≤ a + b) := by
  have key : ∀ x y : ℚ, -1 < x → -1 < y → ((1 ≤ x ∧ 1 ≤ y) ↔ 2 ≤ a + b) →
      (0 ≤ truncToInt (min 4 x) ∧ truncToInt (min 4 x) ≤ 4)
        ∧ (0 ≤ truncToInt (min 4 y) ∧ truncToInt (min 4 y) ≤ 4)
        ∧ ((1 ≤ truncToInt (min 4 x) ∧ 1 ≤ truncToInt (min 4 y)) ↔ 2 ≤ a + b) := by
    intro x y hx hy hxy
    obtain ⟨x0, x4, x1⟩ := clamp_range x hx
    obtain ⟨y0, y4, y1⟩ := clamp_range y hy
    exact ⟨⟨x0, x4⟩, ⟨y0, y4⟩, by rw [x1, y1]; exact hxy⟩
  have forced : 0 ≤ truncToInt (a + b - 1) ∧ (1 ≤ truncToInt (a + b - 1) ↔ 2 ≤ a + b) := by
    obtain ⟨t0, t1⟩ := truncToInt_above_neg_one (a + b - 1) (by linarith)
    refine ⟨t0, ?_⟩
    rw [t1]
    constructor <;> intro h <;> linarith
  have one_le_trunc : ∀ x : ℚ, 1 ≤ x → 1 ≤ truncToInt x := fun x hx =>
    (truncToInt_above_neg_one x (by linarith)).2.mpr hx
  rcases hp with ⟨_, rfl⟩ | ⟨_, _, rfl⟩ | ⟨ha1, hb1, h1, h2⟩
  · apply key
    · norm_num
    · have : (0 : ℚ) ≤ (truncToInt (a + b - 1) : ℚ) := by exact_mod_cast forced.1
      show (-1 : ℚ) < (truncToInt (a + b - 1) : ℚ)
      linarith
    · show ((1 : ℚ) ≤ 1 ∧ (1 : ℚ) ≤ (truncToInt (a + b - 1) : ℚ)) ↔ 2 ≤ a + b
      rw [← forced.2]
      constructor
      · intro h; exact_mod_cast h.2
      · intro h; exact ⟨le_refl _, by exact_mod_cast h⟩
  · apply key
    · have : (0 : ℚ) ≤ (truncToInt (a + b - 1) : ℚ) := by exact_mod_cast forced.1
      show (-1 : ℚ) < (truncToInt (a + b - 1) : ℚ)
      linarith
    · norm_num
    · show ((1 : ℚ) ≤ (truncToInt (a + b - 1) : ℚ) ∧ (1 : ℚ) ≤ 1) ↔ 2 ≤ a + b
      rw [← forced.2]
      constructor
      · intro h; exact_mod_cast h.1
      · intro h; exact ⟨by exact_mod_cast h, le_refl _⟩
  · have ta := one_le_trunc a ha1
    have tb := one_le_trunc b hb1
    have taq : (1 : ℚ) ≤ (truncToInt a : ℚ) := by exact_mod_cast ta
    have tbq : (1 : ℚ) ≤ (truncToInt b : ℚ) := by exact_mod_cast tb
    have p1 : 1 ≤ p.1 := by
      rcases h1 with h | h | h <;> rw [h]
      · exact ha1
      · exact taq
      · push_cast; linarith
    have p2 : 1 ≤ p.2 := by
      rcases h2 with h | h | h <;> rw [h]
      · exact hb1
      · exact tbq
      · push_cast; linarith
    apply key
    · linarith
    · linarith
    · constructor
      · intro _; linarith
      · intro _; exact ⟨p1, p2⟩

/-! ## Claims about the quantizer -/

/-- C8, as stated, fails: at module width 2 the four runs 1, 1, 1, 1 give the
pattern code 1010, which is no `c0*1000 + c1*100 + c2*10 + c3` with every
component in [1, 4] and does not lie in [1111, 4444]. -/
theorem quantizer_range_counterexample :
    decode_single_number 2 1 1 1 1 = 1010
      ∧ ¬ (∃ c0 c1 c2 c3 : ℤ, (1 ≤ c0 ∧ c0 ≤ 4) ∧ (1 ≤ c1 ∧ c1 ≤ 4) ∧ (1 ≤ c2 ∧ c2 ≤ 4)
            ∧ (1 ≤ c3 ∧ c3 ≤ 4)
            ∧ decode_single_number 2 1 1 1 1 = c0 * 1000 + c1 * 100 + c2 * 10 + c3)
      ∧ ¬ (1111 ≤ decode_single_number 2 1 1 1 1) := by
  have e : decode_single_number 2 1 1 1 1 = 1010 := by decide!
  refine ⟨e, ?_, ?_⟩
  · rintro ⟨c0, c1, c2, c3, h0, h1, h2, h3, h⟩
    rw [e] at h
    omega
  · rw [e]; decide

/-- C8, amended. For a module width `h > 0` and four positive run lengths the
pattern code is `c0*1000 + c1*100 + c2*10 + c3` with every component in [0, 4],
so it lies in [0, 4444]; the two components of a pair are both in [1, 4]
exactly when the two run lengths of the pair add up to at least `2 * h`. -/
theorem quantizer_range (h : ℚ) (l_0 l_1 l_2 l_3 : ℤ) (hh : 0 < h)
    (h0 : 0 < l_0) (h1 : 0 < l_1) (h2 : 0 < l_2) (h3 : 0 < l_3) :
    ∃ c0 c1 c2 c3 : ℤ,
      decode_single_number h l_0 l_1 l_2 l_3 = c0 * 1000 + c1 * 100 + c2 * 10 + c3
        ∧ (0 ≤ c0 ∧ c0 ≤ 4) ∧ (0 ≤ c1 ∧ c1 ≤ 4) ∧ (0 ≤ c2 ∧ c2 ≤ 4) ∧ (0 ≤ c3 ∧ c3 ≤ 4)
        ∧ (0 ≤ decode_single_number h l_0 l_1 l_2 l_3
            ∧ decode_single_number h l_0 l_1 l_2 l_3 ≤ 4444)
        ∧ ((1 ≤ c0 ∧ 1 ≤ c1) ↔ 2 * h ≤ l_0 + l_1)
        ∧ ((1 ≤ c2 ∧ 1 ≤ c3) ↔ 2 * h ≤ l_2 + l_3) := by
  have q0 : (0 : ℚ) < l_0 / h := div_pos (by exact_mod_cast h0) hh
  have q1 : (0 : ℚ) < l_1 / h := div_pos (by exact_mod_cast h1) hh
  have q2 : (0 : ℚ) < l_2 / h := div_pos (by exact_mod_cast h2) hh
  have q3 : (0 : ℚ) < l_3 / h := div_pos (by exact_mod_cast h3) hh
  obtain ⟨a0, a1, a01⟩ := pair_components_range _ _ _ q0 q1
    (quantize_pair_0_1_cases (l_0 / h) (l_1 / h) (l_2 / h))
  obtain ⟨a2, a3, a23⟩ := pair_components_range _ _ _ q2 q3
    (quantize_pair_2_3_cases (l_2 / h) (l_3 / h))
  have s01 : (2 ≤ (l_0 : ℚ) / h + l_1 / h) ↔ 2 * h ≤ l_0 + l_1 := by
    rw [← add_div, le_div_iff₀ hh]
  have s23 : (2 ≤ (l_2 : ℚ) / h + l_3 / h) ↔ 2 * h ≤ l_2 + l_3 := by
    rw [← add_div, le_div_iff₀ hh]
  refine ⟨_, _, _, _, by unfold decode_single_number; rfl, a0, a1, a2, a3, ?_, ?_, ?_⟩
  · unfold decode_single_number
    simp only []
    constructor <;> omega
  · rw [← s01]; exact a01
  · rw [← s23]; exact a23

theorem quantizer_range_witness :
    ∃ c0 c1 c2 c3 : ℤ,
      decode_single_number 2 6 4 1 3 = c0 * 1000 + c1 * 100 + c2 * 10 + c3
        ∧ (0 ≤ c0 ∧ c0 ≤ 4) ∧ (0 ≤ c1 ∧ c1 ≤ 4) ∧ (0 ≤ c2 ∧ c2 ≤ 4) ∧ (0 ≤ c3 ∧ c3 ≤ 4)
        ∧ (0 ≤ decode_single_number 2 6 4 1 3 ∧ decode_single_number 2 6 4 1 3 ≤ 4444)
        ∧ ((1 ≤ c0 ∧ 1 ≤ c1) ↔ 2 * (2 : ℚ) ≤ (6 : ℤ) + (4 : ℤ))
        ∧ ((1 ≤ c2 ∧ 1 ≤ c3) ↔ 2 * (2 : ℚ) ≤ (1 : ℤ) + (3 : ℤ)) :=
  quantizer_range 2 6 4 1 3 (by norm_num) (by decide) (by decide) (by decide) (by decide)

/-! ## Claim about the checksum validator -/

/-- C10. For 13 digits in 0..9 the weighted sum (weights 1,3,1,3,...,1) is
divisible by 10 exactly when `d[12]` is the EAN-13 check digit of `d[0..11]`,
and `check_control_number`, run on an identified state holding these digits
with `is_correct` false, sets `is_correct` exactly in that case. -/
theorem checksum_rule (d : List ℕ) (hlen : d.length = 13) (hd : ∀ x ∈ d, x ≤ 9) :
    ((d.getD 0 0 * 1 + d.getD 1 0 * 3 + d.getD 2 0 * 1 + d.getD 3 0 * 3 + d.getD 4 0 * 1
          + d.getD 5 0 * 3 + d.getD 6 0 * 1 + d.getD 7 0 * 3 + d.getD 8 0 * 1 + d.getD 9 0 * 3
          + d.getD 10 0 * 1 + d.getD 11 0 * 3 + d.getD 12 0 * 1) % 10 = 0
        ↔ d.getD 12 0
            = (10 - (d.getD 0 0 + 3 * d.getD 1 0 + d.getD 2 0 + 3 * d.getD 3 0 + d.getD 4 0
                + 3 * d.getD 5 0 + d.getD 6 0 + 3 * d.getD 7 0 + d.getD 8 0 + 3 * d.getD 9 0
                + d.getD 10 0 + 3 * d.getD 11 0) % 10) % 10)
      ∧ ∀ s : Barcode, s.barcode_number = d → s.is_identified = true → s.is_correct = false →
          ((check_control_number s).is_correct = true
            ↔ d.getD 12 0
              = (10 - (d.getD 0 0 + 3 * d.getD 1 0 + d.getD 2 0 + 3 * d.getD 3 0 + d.getD 4 0
                  + 3 * d.getD 5 0 + d.getD 6 0 + 3 * d.getD 7 0 + d.getD 8 0 + 3 * d.getD 9 0
                  + d.getD 10 0 + 3 * d.getD 11 0) % 10) % 10) := by
  have h12 : d.getD 12 0 ≤ 9 := by
    have hlt : 12 < d.length := by omega
    rw [List.getD_eq_getElem _ _ hlt]
    exact hd _ (List.getElem_mem hlt)
  have arith : (d.getD 0 0 * 1 + d.getD 1 0 * 3 + d.getD 2 0 * 1 + d.getD 3 0 * 3 + d.getD 4 0 * 1
          + d.getD 5 0 * 3 + d.getD 6 0 * 1 + d.getD 7 0 * 3 + d.getD 8 0 * 1 + d.getD 9 0 * 3
          + d.getD 10 0 * 1 + d.getD 11 0 * 3 + d.getD 12 0 * 1) % 10 = 0
        ↔ d.getD 12 0
            = (10 - (d.getD 0 0 + 3 * d.getD 1 0 + d.getD 2 0 + 3 * d.getD 3 0 + d.getD 4 0
                + 3 * d.getD 5 0 + d.getD 6 0 + 3 * d.getD 7 0 + d.getD 8 0 + 3 * d.getD 9 0
                + d.getD 10 0 + 3 * d.getD 11 0) % 10) % 10 := by
    omega
  refine ⟨arith, ?_⟩
  intro s hs hi hc
  rw [← arith, ← check_sum_eq, ← hs]
  unfold check_control_number
  by_cases hsum : check_sum s.barcode_number % 10 = 0
  · simp [hi, hsum]
  · simp [hi, hsum, hc]

theorem checksum_rule_witness :
    (([4, 0, 0, 6, 3, 8, 1, 3, 3, 3, 9, 3, 1] : List ℕ).getD 12 0 = 1)
      ∧ (check_control_number
          { Barcode.fresh with barcode_number := [4, 0, 0, 6, 3, 8, 1, 3, 3, 3, 9, 3, 1]
                               is_identified := true }).is_correct = true
      ∧ (check_control_number
          { Barcode.fresh with barcode_number := [4, 0, 0, 6, 3, 8, 1, 3, 3, 3, 9, 3, 2]
                               is_identified := true }).is_correct = false :=
  ⟨rfl,
    ((checksum_rule [4, 0, 0, 6, 3, 8, 1, 3, 3, 3, 9, 3, 1] rfl (by decide)).2 _ rfl rfl rfl).mpr
      (by decide),
    by decide⟩

/-! ## Invariants of the segmenter loop -/

theorem sum_modify_succ (l : List Nat) :
    ∀ i : Nat, i < l.length → (l.modify (· + 1) i).sum = l.sum + 1 := by
  induction l with
  | nil => intro i h; simp at h
  | cons a l ih =>
      intro i h
      cases i with
      | zero => simp [List.modify_zero_cons]; omega
      | succ i =>
          simp only [List.modify_succ_cons, List.sum_cons]
          rw [ih i (by simpa using h)]
          omega

/-- Each iteration advances `index` by one and `part_index` by at most one. -/
theorem part_loop_body_part_index (test_row : List Nat) (part_size : Nat) (v : PartLoop) :
    (part_loop_body test_row part_size v).part_index ≤ v.part_index + 1 := by
  unfold part_loop_body
  simp only []
  repeat' split
  all_goals simp

theorem part_loop_progress (n : Nat) (test_row : List Nat) (part_size beg : Nat) (fuel : Nat) :
    ∀ v : PartLoop, beg + v.part_index ≤ v.index → v.index ≤ n →
      beg + (part_loop n test_row part_size fuel v).part_index
          ≤ (part_loop n test_row part_size fuel v).index
        ∧ (part_loop n test_row part_size fuel v).index ≤ n := by
  induction fuel with
  | zero => intro v h1 h2; exact ⟨h1, h2⟩
  | succ fuel ih =>
      intro v h1 h2
      rw [part_loop]
      split
      next hc =>
        apply ih
        · have := part_loop_body_part_index test_row part_size v
          rw [part_loop_body_index]
          omega
        · rw [part_loop_body_index]
          omega
      next => exact ⟨h1, h2⟩

/-- The initial loop variables of `constract_row_structure_part`. -/
theorem constract_row_structure_part_eq (n : Nat) (test_row : List Nat) (beg c part_size : Nat) :
    ∃ v : PartLoop,
      v = part_loop n test_row part_size (n - beg)
        { index := beg, part_index := 0, curr_color := c,
          prev_color := if c = black_color then white_color else black_color,
          part := List.replicate part_size 0, spill := 0 }
      ∧ constract_row_structure_part n test_row beg c part_size
        = { index := if v.part_index ≠ part_size then n else v.index, part := v.part,
            spill := v.spill,
            part_filled := decide ((if v.part_index ≠ part_size then n else v.index) < n) } :=
  ⟨_, rfl, rfl⟩

/-- A filled group has taken at least `part_size` pixels and ends inside the
scanline. -/
theorem part_filled_index (n : Nat) (test_row : List Nat) (beg c part_size : Nat)
    (h : (constract_row_structure_part n test_row beg c part_size).part_filled = true) :
    beg + part_size ≤ (constract_row_structure_part n test_row beg c part_size).index
      ∧ (constract_row_structure_part n test_row beg c part_size).index < n := by
  obtain ⟨v, hv, e⟩ := constract_row_structure_part_eq n test_row beg c part_size
  rw [e] at h ⊢
  simp only [decide_eq_true_eq] at h ⊢
  refine ⟨?_, h⟩
  by_cases hp : v.part_index = part_size
  · simp only [hp, ne_eq, not_true_eq_false, if_false] at h ⊢
    by_cases hbeg : beg ≤ n
    · have := (part_loop_progress n test_row part_size beg (n - beg)
        { index := beg, part_index := 0, curr_color := c,
          prev_color := if c = black_color then white_color else black_color,
          part := List.replicate part_size 0, spill := 0 } (by simp) hbeg).1
      rw [← hv, hp] at this
      exact this
    · exfalso
      have hz : n - beg = 0 := by omega
      rw [hz] at hv
      simp only [part_loop] at hv
      rw [hv] at h
      simp only at h
      omega
  · simp [hp] at h

/-- The loop variables between two iterations, for a group of at least one
slot: the group keeps its `part_size` slots, `index` is the start plus all the
increments made so far, and the increment outside the group has happened
exactly when `part_index` has reached `part_size`. -/
theorem part_loop_body_inv (test_row : List Nat) (part_size beg : Nat) (v : PartLoop)
    (hg : v.part_index < part_size)
    (h : v.part.length = part_size ∧ v.index = beg + v.part.sum + v.spill ∧ v.spill = 0) :
    (part_loop_body test_row part_size v).part.length = part_size
      ∧ (part_loop_body test_row part_size v).index
          = beg + (part_loop_body test_row part_size v).part.sum
            + (part_loop_body test_row part_size v).spill
      ∧ (part_loop_body test_row part_size v).part_index ≤ part_size
      ∧ ((part_loop_body test_row part_size v).part_index < part_size →
          (part_loop_body test_row part_size v).spill = 0)
      ∧ ((part_loop_body test_row part_size v).part_index = part_size →
          (part_loop_body test_row part_size v).spill = 1) := by
  obtain ⟨h1, h2, h3⟩ := h
  unfold part_loop_body
  simp only []
  by_cases hp : test_row.getD v.index 0 = v.prev_color
  · by_cases hq : v.part_index + 1 < part_size
    · simp only [hp, hq, if_true, List.length_modify]
      rw [sum_modify_succ _ _ (by omega)]
      refine ⟨h1, by omega, by omega, fun _ => h3, fun h => by omega⟩
    · simp only [hp, hq, if_true, if_false]
      refine ⟨h1, by omega, by omega, fun h => False.elim h, fun _ => by omega⟩
  · simp only [hp, hg, if_true, if_false, List.length_modify]
    rw [sum_modify_succ _ _ (by omega)]
    refine ⟨h1, by omega, by omega, fun _ => h3, fun h => by omega⟩

theorem part_loop_inv (n : Nat) (test_row : List Nat) (part_size beg : Nat) (fuel : Nat) :
    ∀ v : PartLoop,
      (v.part.length = part_size ∧ v.index = beg + v.part.sum + v.spill
        ∧ v.part_index ≤ part_size ∧ (v.part_index < part_size → v.spill = 0)
        ∧ (v.part_index = part_size → v.spill = 1)) →
      ((part_loop n test_row part_size fuel v).part.length = part_size
        ∧ (part_loop n test_row part_size fuel v).index
            = beg + (part_loop n test_row part_size fuel v).part.sum
              + (part_loop n test_row part_size fuel v).spill
        ∧ (part_loop n test_row part_size fuel v).part_index ≤ part_size
        ∧ ((part_loop n test_row part_size fuel v).part_index < part_size →
            (part_loop n test_row part_size fuel v).spill = 0)
        ∧ ((part_loop n test_row part_size fuel v).part_index = part_size →
            (part_loop n test_row part_size fuel v).spill = 1)) := by
  induction fuel with
  | zero => intro v h; exact h
  | succ fuel ih =>
      intro v h
      rw [part_loop]
      split
      next hc =>
        exact ih _ (part_loop_body_inv test_row part_size beg v hc.2 ⟨h.1, h.2.1, h.2.2.2.1 hc.2⟩)
      next => exact h

/-- What every call of the segmenter on a group of at least one slot returns:
`part_size` run lengths; when the group is filled, exactly one increment outside
the group and the index `beg_index + (sum of the run lengths) + 1`; when it is
not filled, the index `max_image_index`. -/
theorem constract_row_structure_part_spec (n : Nat) (test_row : List Nat)
    (beg c part_size : Nat) (hsize : 0 < part_size) :
    (constract_row_structure_part n test_row beg c part_size).part.length = part_size
      ∧ ((constract_row_structure_part n test_row beg c part_size).part_filled = true →
          (constract_row_structure_part n test_row beg c part_size).spill = 1
            ∧ (constract_row_structure_part n test_row beg c part_size).index
              = beg + (constract_row_structure_part n test_row beg c part_size).part.sum + 1)
      ∧ ((constract_row_structure_part n test_row beg c part_size).part_filled = false →
          (constract_row_structure_part n test_row beg c part_size).index = n) := by
  have inv := part_loop_inv n test_row part_size beg (n - beg)
    { index := beg, part_index := 0, curr_color := c,
      prev_color := if c = black_color then white_color else black_color,
      part := List.replicate part_size 0, spill := 0 }
    ⟨by simp, by simp, by simp, fun _ => rfl, fun h => by simp at h; omega⟩
  obtain ⟨i1, i2, _, _, i5⟩ := inv
  obtain ⟨v, hv, e⟩ := constract_row_structure_part_eq n test_row beg c part_size
  rw [← hv] at i1 i2 i5
  rw [e]
  simp only [decide_eq_true_eq, decide_eq_false_iff_not]
  by_cases hp : v.part_index = part_size
  · simp only [hp, ne_eq, not_true_eq_false, if_false]
    have hs := i5 hp
    refine ⟨i1, fun _ => ⟨hs, by rw [i2, hs]⟩, fun hf => ?_⟩
    by_cases hbeg : beg ≤ n
    · have := (part_loop_progress n test_row part_size beg (n - beg)
        { index := beg, part_index := 0, curr_color := c,
          prev_color := if c = black_color then white_color else black_color,
          part := List.replicate part_size 0, spill := 0 } (by simp) hbeg).2
      rw [← hv] at this
      omega
    · exfalso
      have hz : n - beg = 0 := by omega
      rw [hz] at hv
      simp only [part_loop] at hv
      rw [hv] at hp
      simp only at hp
      omega
  · simp only [hp, ne_eq, not_false_eq_true, if_true]
    exact ⟨i1, fun hf => absurd hf (lt_irrefl n), by simp⟩

/-! ## Pixel reads stay inside the scanline -/

theorem find_row_structure_part_beg_loop_checked_eq (n : Nat) (test_row : List Nat)
    (part_color : Nat) (hn : n ≤ test_row.length) (fuel : Nat) :
    ∀ index : Nat,
      find_row_structure_part_beg_loop_checked n test_row part_color fuel index
        = some (find_row_structure_part_beg_loop n test_row part_color fuel index) := by
  induction fuel with
  | zero => intro index; rfl
  | succ fuel ih =>
      intro index
      rw [find_row_structure_part_beg_loop_checked, find_row_structure_part_beg_loop]
      by_cases hi : index < n
      · have hlt : index < test_row.length := by omega
        simp only [hi, if_true, List.getElem?_eq_getElem hlt, List.getD_eq_getElem _ _ hlt]
        split
        · rfl
        · exact ih (index + 1)
      · simp [hi]

theorem part_loop_checked_eq (n : Nat) (test_row : List Nat) (part_size : Nat)
    (hn : n ≤ test_row.length) (fuel : Nat) :
    ∀ v : PartLoop,
      part_loop_checked n test_row part_size fuel v
        = some (part_loop n test_row part_size fuel v) := by
  induction fuel with
  | zero => intro v; rfl
  | succ fuel ih =>
      intro v
      rw [part_loop_checked, part_loop]
      by_cases hc : v.index < n ∧ v.part_index < part_size
      · have hlt : v.index < test_row.length := by omega
        simp only [hc, and_self, if_true, List.getElem?_eq_getElem hlt]
        exact ih _
      · simp only [hc, if_false]

/-- On a scanline of `max_image_index` pixels no read of the two segmenter
functions falls outside the scanline. -/
theorem segmenter_reads_checked (test_row : List Nat) (beg c part_size : Nat) :
    find_row_structure_part_beg_checked test_row.length test_row beg c
        = some (find_row_structure_part_beg test_row.length test_row beg c)
      ∧ constract_row_structure_part_checked test_row.length test_row beg c part_size
        = some (constract_row_structure_part test_row.length test_row beg c part_size) := by
  constructor
  · exact find_row_structure_part_beg_loop_checked_eq _ _ _ (le_refl _) _ _
  · unfold constract_row_structure_part_checked constract_row_structure_part
    rw [part_loop_checked_eq _ _ _ (le_refl _)]

/-- Five filled groups take at least 3 + 24 + 5 + 24 + 3 pixels and end inside
the scanline. -/
theorem short_row_no_structure (adjacent : Bool) (test_row : List Nat)
    (hlen : test_row.length < 59) :
    (constract_row_structure adjacent test_row.length Barcode.fresh test_row).has_barcode_structure
      = false := by
  unfold constract_row_structure
  simp only []
  split
  next h =>
    exfalso
    simp only [Bool.and_eq_true] at h
    obtain ⟨⟨⟨⟨h1, h2⟩, h3⟩, h4⟩, h5⟩ := h
    have b1 := part_filled_index _ _ _ _ _ h1
    have b2 := part_filled_index _ _ _ _ _ h2
    have b3 := part_filled_index _ _ _ _ _ h3
    have b4 := part_filled_index _ _ _ _ _ h4
    have b5 := part_filled_index _ _ _ _ _ h5
    simp only [left_guards_size, left_code_size, middle_guards_size, right_code_size,
      right_guards_size] at b1 b2 b3 b4 b5
    omega
  next =>
    simp [store_part, Barcode.fresh]

/-- C12. On a scanline narrower than 59 pixels the segmentation run from a fresh
state does not set `has_barcode_structure`, the row is not decoded, and no
pixel read of `find_row_structure_part_beg` or `constract_row_structure_part`
falls outside the scanline, whatever the start index, colour and group size. -/
theorem short_scanline_fails_safely (adjacent : Bool) (test_row : List Nat)
    (hlen : test_row.length < 59) :
    (constract_row_structure adjacent test_row.length Barcode.fresh test_row).has_barcode_structure
        = false
      ∧ (decode_row adjacent test_row.length Barcode.fresh test_row).is_correct = false
      ∧ (decode adjacent (one_row test_row)).is_decoded = false
      ∧ ∀ beg c part_size : Nat,
          find_row_structure_part_beg_checked test_row.length test_row beg c
              = some (find_row_structure_part_beg test_row.length test_row beg c)
            ∧ constract_row_structure_part_checked test_row.length test_row beg c part_size
              = some (constract_row_structure_part test_row.length test_row beg c part_size) := by
  have hs := short_row_no_structure adjacent test_row hlen
  have hf := constract_row_structure_frame adjacent test_row.length Barcode.fresh test_row
  have hrow : (decode_row adjacent test_row.length Barcode.fresh test_row).is_correct = false := by
    unfold decode_row
    have hi : identify_barcode_number
        (constract_row_structure adjacent test_row.length Barcode.fresh test_row)
        = constract_row_structure adjacent test_row.length Barcode.fresh test_row := by
      unfold identify_barcode_number
      simp [hs]
    rw [hi]
    have h1 : (constract_row_structure adjacent test_row.length Barcode.fresh test_row).is_identified
        = false := hf.1
    have h2 : (constract_row_structure adjacent test_row.length Barcode.fresh test_row).is_correct
        = false := hf.2.1
    unfold check_control_number
    simp [h1, h2]
  refine ⟨hs, hrow, ?_, fun beg c part_size => segmenter_reads_checked test_row beg c part_size⟩
  simp only [decode, one_row, decode_rows, Barcode.is_decoded, hrow, Bool.false_eq_true,
    if_false]
  rw [clear_data_is_correct]
  exact hrow

theorem short_scanline_fails_safely_witness :
    row_short.length = 58
      ∧ (constract_row_structure true row_short.length Barcode.fresh row_short).has_barcode_structure
        = false
      ∧ (decode_row true row_short.length Barcode.fresh row_short).is_correct = false
      ∧ (decode true (one_row row_short)).is_decoded = false
      ∧ ∀ beg c part_size : Nat,
          find_row_structure_part_beg_checked row_short.length row_short beg c
              = some (find_row_structure_part_beg row_short.length row_short beg c)
            ∧ constract_row_structure_part_checked row_short.length row_short beg c part_size
              = some (constract_row_structure_part row_short.length row_short beg c part_size) :=
  ⟨by decide, short_scanline_fails_safely true row_short (by decide)⟩

/-! ## The segmenter on a scanline given by its runs -/

theorem drop_eq_cons (row : List Nat) (i p : Nat) (ps : List Nat) (h : row.drop i = p :: ps) :
    i < row.length ∧ row.getD i 0 = p ∧ row.drop (i + 1) = ps := by
  have hlt : i < row.length := by
    by_contra hcon
    rw [List.drop_eq_nil_of_le (by omega)] at h
    exact List.noConfusion h
  rw [List.drop_eq_getElem_cons hlt] at h
  injection h with h1 h2
  exact ⟨hlt, by rw [List.getD_eq_getElem _ _ hlt]; exact h1, h2⟩

theorem modify_append_cons (f : Nat → Nat) (cur : Nat) (zs : List Nat) :
    ∀ done : List Nat, (done ++ cur :: zs).modify f done.length = done ++ f cur :: zs := by
  intro done
  induction done with
  | nil => simp [List.modify_zero_cons]
  | cons a done ih => simp [List.modify_succ_cons, ih]

theorem part_loop_step (n : Nat) (test_row : List Nat) (part_size f : Nat) (v : PartLoop)
    (h1 : v.index < n) (h2 : v.part_index < part_size) :
    part_loop n test_row part_size (f + 1) v
      = part_loop n test_row part_size f (part_loop_body test_row part_size v) := by
  rw [part_loop]
  simp [h1, h2]

theorem part_loop_stop (n : Nat) (test_row : List Nat) (part_size f : Nat) (v : PartLoop)
    (h : ¬ v.part_index < part_size) :
    part_loop n test_row part_size f v = v := by
  cases f with
  | zero => rfl
  | succ f => rw [part_loop]; simp [h]

theorem part_loop_body_same (test_row : List Nat) (part_size : Nat) (v : PartLoop)
    (h : test_row.getD v.index 0 ≠ v.prev_color) (hlt : v.part_index < part_size) :
    part_loop_body test_row part_size v
      = { v with part := v.part.modify (· + 1) v.part_index, index := v.index + 1 } := by
  unfold part_loop_body
  simp only [h, hlt, if_true, if_false]

theorem part_loop_body_flip (test_row : List Nat) (part_size : Nat) (v : PartLoop)
    (h : test_row.getD v.index 0 = v.prev_color) (hlt : v.part_index + 1 < part_size) :
    part_loop_body test_row part_size v
      = { v with curr_color := v.prev_color, prev_color := v.curr_color,
                 part_index := v.part_index + 1,
                 part := v.part.modify (· + 1) (v.part_index + 1), index := v.index + 1 } := by
  unfold part_loop_body
  simp only [h, hlt, if_true, if_false]

theorem part_loop_body_flip_out (test_row : List Nat) (part_size : Nat) (v : PartLoop)
    (h : test_row.getD v.index 0 = v.prev_color) (hge : ¬ v.part_index + 1 < part_size) :
    part_loop_body test_row part_size v
      = { v with curr_color := v.prev_color, prev_color := v.curr_color,
                 part_index := v.part_index + 1,
                 spill := v.spill + 1, index := v.index + 1 } := by
  unfold part_loop_body
  simp only [h, hge, if_true, if_false]

/-- The rest of a run: `m` pixels that are not of the colour awaited for the
next run add `m` to the current slot. -/
theorem part_loop_stretch (test_row : List Nat) (part_size a : Nat) (done zs : List Nat) :
    ∀ (m : Nat) (v : PartLoop) (cur : Nat) (ps : List Nat) (f : Nat),
      v.part = done ++ cur :: zs → v.part_index = done.length →
      part_size = done.length + 1 + zs.length →
      test_row.drop v.index = List.replicate m a ++ ps → a ≠ v.prev_color →
      part_loop test_row.length test_row part_size (m + f) v
        = part_loop test_row.length test_row part_size f
            { v with index := v.index + m, part := done ++ (cur + m) :: zs } := by
  intro m
  induction m with
  | zero =>
      intro v cur ps f hp _ _ _ _
      cases v
      simp only at hp
      simp [hp]
  | succ m ih =>
      intro v cur ps f hp hi hsz hd ha
      rw [List.replicate_succ, List.cons_append] at hd
      obtain ⟨hlt, hpix, hd'⟩ := drop_eq_cons _ _ _ _ hd
      have hfuel : m + 1 + f = (m + f) + 1 := by omega
      rw [hfuel, part_loop_step _ _ _ _ _ hlt (by omega),
        part_loop_body_same _ _ _ (by rw [hpix]; exact ha) (by omega)]
      have hmod : v.part.modify (· + 1) v.part_index = done ++ (cur + 1) :: zs := by
        rw [hp, hi, modify_append_cons]
      rw [ih { v with part := v.part.modify (· + 1) v.part_index, index := v.index + 1 }
        (cur + 1) ps f hmod hi hsz hd' ha]
      congr 1
      cases v
      simp only [PartLoop.mk.injEq, true_and, and_true]
      constructor
      · omega
      · congr 2; omega

theorem pixels_of_runs_length : ∀ (ns : List Nat) (c : Nat), (pixels_of_runs ns c).length = ns.sum := by
  intro ns
  induction ns with
  | nil => intro c; rfl
  | cons n rest ih => intro c; simp [pixels_of_runs, ih]

/-- The runs after the current one: each starts with a pixel of the awaited
colour, which moves to the next slot; the pixel after the last run moves past
the group, is counted outside it and ends the loop. -/
theorem part_loop_runs (test_row : List Nat) (part_size : Nat) :
    ∀ (ns : List Nat) (v : PartLoop) (done : List Nat) (cur : Nat) (tail : List Nat) (f : Nat),
      (∀ x ∈ ns, 1 ≤ x) →
      v.part = done ++ cur :: List.replicate ns.length 0 → v.part_index = done.length →
      part_size = done.length + 1 + ns.length →
      ((v.curr_color = black_color ∧ v.prev_color = white_color)
        ∨ (v.curr_color = white_color ∧ v.prev_color = black_color)) →
      test_row.drop v.index = pixels_of_runs (ns ++ [1]) v.prev_color ++ tail →
      (part_loop test_row.length test_row part_size (ns.sum + 1 + f) v).index
          = v.index + ns.sum + 1
        ∧ (part_loop test_row.length test_row part_size (ns.sum + 1 + f) v).part_index = part_size
        ∧ (part_loop test_row.length test_row part_size (ns.sum + 1 + f) v).part
          = done ++ cur :: ns
        ∧ (part_loop test_row.length test_row part_size (ns.sum + 1 + f) v).spill
          = v.spill + 1 := by
  intro ns
  induction ns with
  | nil =>
      intro v done cur tail f _ hp hi hsz _ hd
      simp only [List.nil_append, pixels_of_runs, List.replicate_one, List.append_nil,
        List.singleton_append] at hd
      obtain ⟨hlt, hpix, _⟩ := drop_eq_cons _ _ _ _ hd
      simp only [List.length_nil, add_zero] at hsz
      have hfuel : ([] : List Nat).sum + 1 + f = f + 1 := by simp; omega
      rw [hfuel, part_loop_step _ _ _ _ _ hlt (by omega),
        part_loop_body_flip_out _ _ _ hpix (by omega), part_loop_stop _ _ _ _ _ (by simp; omega)]
      simp only [List.sum_nil, add_zero, List.length_nil, List.replicate_zero] at hp ⊢
      exact ⟨trivial, by omega, hp, trivial⟩
  | cons n rest ih =>
      intro v done cur tail f hpos hp hi hsz hcol hd
      have hn : 1 ≤ n := hpos n (List.mem_cons_self _ _)
      obtain ⟨m, rfl⟩ : ∃ m, n = m + 1 := ⟨n - 1, by omega⟩
      simp only [List.cons_append, pixels_of_runs, List.replicate_succ, List.append_assoc] at hd
      obtain ⟨hlt, hpix, hd'⟩ := drop_eq_cons _ _ _ _ hd
      simp only [List.length_cons] at hsz hp
      have hfuel : ((m + 1) :: rest).sum + 1 + f = (m + (rest.sum + 1 + f)) + 1 := by
        simp only [List.sum_cons]; omega
      have hmod : v.part.modify (· + 1) (v.part_index + 1)
          = (done ++ [cur]) ++ 1 :: List.replicate rest.length 0 := by
        have := modify_append_cons (· + 1) 0 (List.replicate rest.length 0) (done ++ [cur])
        simp only [List.length_append, List.length_singleton, List.append_assoc,
          List.singleton_append, zero_add] at this
        rw [hp, hi, List.replicate_succ]
        simpa using this
      have hne : v.prev_color ≠ v.curr_color := by
        rcases hcol with ⟨h1, h2⟩ | ⟨h1, h2⟩ <;> rw [h1, h2] <;> decide
      have hopp : (if v.prev_color = black_color then white_color else black_color)
          = v.curr_color := by
        rcases hcol with ⟨h1, h2⟩ | ⟨h1, h2⟩ <;> rw [h1, h2] <;> decide
      rw [hopp] at hd'
      rw [hfuel, part_loop_step _ _ _ _ _ hlt (by omega),
        part_loop_body_flip _ _ _ hpix (by omega),
        part_loop_stretch test_row part_size v.prev_color (done ++ [cur])
          (List.replicate rest.length 0) m _ 1 _ _ hmod
          (by simp only [List.length_append, List.length_singleton]; omega)
          (by simp only [List.length_append, List.length_singleton, List.length_replicate]
              omega)
          hd' hne]
      have hd2 : test_row.drop (v.index + 1 + m)
          = pixels_of_runs (rest ++ [1]) v.curr_color ++ tail := by
        have e : test_row.drop (v.index + 1 + m) = (test_row.drop (v.index + 1)).drop m := by
          rw [List.drop_drop]
        rw [e, hd']
        simp
      have key := ih
        { index := v.index + 1 + m, part_index := v.part_index + 1, curr_color := v.prev_color,
          prev_color := v.curr_color,
          part := (done ++ [cur]) ++ (1 + m) :: List.replicate rest.length 0, spill := v.spill }
        (done ++ [cur]) (1 + m) tail f
        (fun x hx => hpos x (List.mem_cons_of_mem _ hx)) rfl
        (by simp only [List.length_append, List.length_singleton]; omega)
        (by simp only [List.length_append, List.length_singleton]; omega)
        (by rcases hcol with ⟨h1, h2⟩ | ⟨h1, h2⟩
            · right; exact ⟨h2, h1⟩
            · left; exact ⟨h2, h1⟩)
        hd2
      obtain ⟨k1, k2, k3, k4⟩ := key
      refine ⟨?_, ?_, ?_, ?_⟩
      · rw [k1]
        simp only [List.sum_cons]
        omega
      · exact k2
      · rw [k3]
        simp [Nat.add_comm]
      · exact k4

/-- The whole result of a segmenter call placed on the first pixel of `k ≥ 1`
runs that are followed by a pixel of the next colour and one further pixel. -/
theorem segmenter_on_runs (pre tail : List Nat) (c q n1 : Nat) (rest : List Nat)
    (hc : c = black_color ∨ c = white_color) (hpos : ∀ x ∈ n1 :: rest, 1 ≤ x) :
    constract_row_structure_part
        (pre ++ (pixels_of_runs ((n1 :: rest) ++ [1]) c ++ q :: tail)).length
        (pre ++ (pixels_of_runs ((n1 :: rest) ++ [1]) c ++ q :: tail))
        pre.length c (n1 :: rest).length
      = { index := pre.length + (n1 :: rest).sum + 1, part := n1 :: rest, spill := 1,
          part_filled := true } := by
  obtain ⟨row, hrow⟩ : ∃ row, row = pre ++ (pixels_of_runs ((n1 :: rest) ++ [1]) c ++ q :: tail) :=
    ⟨_, rfl⟩
  rw [← hrow]
  have hlen : row.length = pre.length + (n1 + (rest.sum + 1 + (1 + tail.length))) := by
    rw [hrow]
    simp only [List.length_append, pixels_of_runs_length, List.sum_append, List.sum_cons,
      List.sum_nil, List.length_cons, List.cons_append]
    omega
  have hdrop : row.drop pre.length
      = List.replicate n1 c
        ++ (pixels_of_runs (rest ++ [1]) (if c = black_color then white_color else black_color)
          ++ q :: tail) := by
    rw [hrow, List.drop_left]
    simp only [List.cons_append, pixels_of_runs, List.append_assoc]
    rfl
  have hne : c ≠ (if c = black_color then white_color else black_color) := by
    rcases hc with h | h <;> rw [h] <;> decide
  obtain ⟨v, hv, e⟩ := constract_row_structure_part_eq row.length row pre.length c
    (n1 :: rest).length
  have hfuel : row.length - pre.length = n1 + (rest.sum + 1 + (1 + tail.length)) := by omega
  rw [hfuel, part_loop_stretch row (n1 :: rest).length c [] (List.replicate rest.length 0) n1
    _ 0 _ _ (by simp [List.replicate_succ]) rfl
    (by simp only [List.length_cons, List.length_nil, List.length_replicate]; omega)
    hdrop hne] at hv
  have hd2 : row.drop (pre.length + n1)
      = pixels_of_runs (rest ++ [1]) (if c = black_color then white_color else black_color)
        ++ q :: tail := by
    have e2 : row.drop (pre.length + n1) = (row.drop pre.length).drop n1 := by
      rw [List.drop_drop]
    rw [e2, hdrop]
    simp
  have key := part_loop_runs row (n1 :: rest).length rest
    { index := pre.length + n1, part_index := 0, curr_color := c,
      prev_color := if c = black_color then white_color else black_color,
      part := [] ++ (0 + n1) :: List.replicate rest.length 0, spill := 0 }
    [] (0 + n1) (q :: tail) (1 + tail.length)
    (fun x hx => hpos x (List.mem_cons_of_mem _ hx)) rfl rfl (by simp; omega)
    (by rcases hc with h | h
        · subst h
          left
          exact ⟨rfl, by simp⟩
        · subst h
          right
          have hwb : white_color ≠ black_color := by decide
          exact ⟨rfl, by simp [hwb]⟩) hd2
  rw [← hv] at key
  obtain ⟨k1, k2, k3, k4⟩ := key
  rw [e]
  simp only [k1, k2, k3, k4, ne_eq, not_true_eq_false, if_false, List.nil_append, zero_add,
    List.sum_cons, PartResult.mk.injEq, decide_eq_true_eq, true_and]
  refine ⟨by omega, ?_⟩
  rw [hlen]
  omega

/-- C14. When the scanline holds, from the start index on, `k ≥ 1` runs of
alternating colour with lengths `ns` (each at least 1, the first of the colour
`c`), then a pixel of the colour opposite to the last run and at least one
further pixel, the segmenter reports the group as filled and the collected run
lengths are exactly `ns`. -/
theorem segmenter_collects_runs (pre tail ns : List Nat) (c q : Nat)
    (hc : c = black_color ∨ c = white_color) (hne : ns ≠ []) (hpos : ∀ x ∈ ns, 1 ≤ x) :
    (constract_row_structure_part
        (pre ++ (pixels_of_runs (ns ++ [1]) c ++ q :: tail)).length
        (pre ++ (pixels_of_runs (ns ++ [1]) c ++ q :: tail))
        pre.length c ns.length).part_filled = true
      ∧ (constract_row_structure_part
        (pre ++ (pixels_of_runs (ns ++ [1]) c ++ q :: tail)).length
        (pre ++ (pixels_of_runs (ns ++ [1]) c ++ q :: tail))
        pre.length c ns.length).part = ns := by
  cases ns with
  | nil => exact absurd rfl hne
  | cons n1 rest =>
      rw [segmenter_on_runs pre tail c q n1 rest hc hpos]
      exact ⟨rfl, rfl⟩

theorem segmenter_collects_runs_witness :
    (white_color = black_color ∨ white_color = white_color)
      ∧ [3, 2, 1, 1] ≠ ([] : List Nat)
      ∧ (constract_row_structure_part
          ([0, 255, 0] ++ (pixels_of_runs ([3, 2, 1, 1] ++ [1]) white_color ++ 0 :: [255])).length
          ([0, 255, 0] ++ (pixels_of_runs ([3, 2, 1, 1] ++ [1]) white_color ++ 0 :: [255]))
          ([0, 255, 0] : List Nat).length white_color ([3, 2, 1, 1] : List Nat).length).part_filled
          = true
      ∧ (constract_row_structure_part
          ([0, 255, 0] ++ (pixels_of_runs ([3, 2, 1, 1] ++ [1]) white_color ++ 0 :: [255])).length
          ([0, 255, 0] ++ (pixels_of_runs ([3, 2, 1, 1] ++ [1]) white_color ++ 0 :: [255]))
          ([0, 255, 0] : List Nat).length white_color ([3, 2, 1, 1] : List Nat).length).part
          = [3, 2, 1, 1] :=
  ⟨by decide, by decide,
    segmenter_collects_runs [0, 255, 0] [255] [3, 2, 1, 1] white_color 0 (by decide) (by decide)
      (by decide)⟩

/-! ## The pair blocks in detail -/

theorem truncToInt_of_nonneg (x : ℚ) (hx : 0 ≤ x) : truncToInt x = ⌊x⌋ := by
  unfold truncToInt
  simp [hx]

theorem truncToInt_ge_neg_one (y : ℚ) (hy : -1 ≤ y) : -1 ≤ truncToInt y := by
  unfold truncToInt
  split
  next h0 =>
    have := Int.floor_nonneg.mpr h0
    omega
  next =>
    have : (-2 : ℤ) < ⌈y⌉ := by
      rw [Int.lt_ceil]
      push_cast
      linarith
    omega

theorem truncToInt_le_of_le (y : ℚ) (z : ℤ) (hz : 0 ≤ z) (hy : y ≤ z) : truncToInt y ≤ z := by
  unfold truncToInt
  split
  · have h1 : ⌊y⌋ ≤ ⌊(z : ℚ)⌋ := Int.floor_le_floor hy
    rwa [Int.floor_intCast] at h1
  next h0 =>
    have hlt : y < 0 := lt_of_not_ge h0
    have : ⌈y⌉ ≤ 0 := by
      rw [Int.ceil_le]; simpa using hlt.le
    omega

/-- The clamp and cast of a value that is at least `-1`. -/
theorem clamp_bounds (x : ℚ) (hx : -1 ≤ x) :
    -1 ≤ truncToInt (min 4 x) ∧ truncToInt (min 4 x) ≤ 4 :=
  ⟨truncToInt_ge_neg_one _ (le_min (by norm_num) hx),
    truncToInt_le_of_le _ 4 (by norm_num) (by exact_mod_cast min_le_left 4 x)⟩

/-- The clamp and cast of a whole number. -/
theorem clamp_int (z : ℤ) : truncToInt (min 4 (z : ℚ)) = min 4 z := by
  have e : min 4 (z : ℚ) = ((min 4 z : ℤ) : ℚ) := by
    push_cast
    rfl
  rw [e, truncToInt_intCast]

/-- Both ratios at least 1: the first block either leaves them as they are,
when truncating each loses nothing, or raises exactly one truncated ratio. -/
theorem quantize_pair_0_1_round (a b c : ℚ) (ha : 1 ≤ a) (hb : 1 ≤ b) :
    (¬ (truncToInt (a + b) > truncToInt a + truncToInt b) ∧ quantize_pair_0_1 a b c = (a, b))
      ∨ (truncToInt (a + b) > truncToInt a + truncToInt b
          ∧ (quantize_pair_0_1 a b c = (((truncToInt a + 1 : ℤ) : ℚ), ((truncToInt b : ℤ) : ℚ))
            ∨ quantize_pair_0_1 a b c
              = (((truncToInt a : ℤ) : ℚ), ((truncToInt b + 1 : ℤ) : ℚ)))) := by
  have ha' : ¬ a < 1 := not_lt.mpr ha
  have hb' : ¬ b < 1 := not_lt.mpr hb
  unfold quantize_pair_0_1
  simp only [ha', hb', or_self, if_false]
  by_cases hr : truncToInt (a + b) > truncToInt a + truncToInt b
  · right
    refine ⟨hr, ?_⟩
    simp only [hr, if_true]
    repeat' split
    all_goals simp
  · left
    exact ⟨hr, by simp only [hr, if_false]⟩

theorem quantize_pair_2_3_round (a b : ℚ) (ha : 1 ≤ a) (hb : 1 ≤ b) :
    (¬ (truncToInt (a + b) > truncToInt a + truncToInt b) ∧ quantize_pair_2_3 a b = (a, b))
      ∨ (truncToInt (a + b) > truncToInt a + truncToInt b
          ∧ (quantize_pair_2_3 a b = (((truncToInt a + 1 : ℤ) : ℚ), ((truncToInt b : ℤ) : ℚ))
            ∨ quantize_pair_2_3 a b
              = (((truncToInt a : ℤ) : ℚ), ((truncToInt b + 1 : ℤ) : ℚ)))) := by
  have ha' : ¬ a < 1 := not_lt.mpr ha
  have hb' : ¬ b < 1 := not_lt.mpr hb
  unfold quantize_pair_2_3
  simp only [ha', hb', or_self, if_false]
  by_cases hr : truncToInt (a + b) > truncToInt a + truncToInt b
  · right
    refine ⟨hr, ?_⟩
    simp only [hr, if_true]
    repeat' split
    all_goals simp
  · left
    exact ⟨hr, by simp only [hr, if_false]⟩

/-- Sum of the two clamped components of a pair whose ratios are below 4 and
add up to at least 1, from the way its block ended. -/
theorem pair_components_sum (a b : ℚ) (p : ℚ × ℚ) (ha : 0 ≤ a) (hb : 0 ≤ b)
    (ha4 : a < 4) (hb4 : b < 4) (hab : 1 ≤ a + b)
    (hp : (a < 1 ∧ p = (1, (truncToInt (a + b - 1) : ℚ)))
      ∨ (1 ≤ a ∧ b < 1 ∧ p = ((truncToInt (a + b - 1) : ℚ), 1))
      ∨ (1 ≤ a ∧ 1 ≤ b
          ∧ ((¬ (truncToInt (a + b) > truncToInt a + truncToInt b) ∧ p = (a, b))
            ∨ (truncToInt (a + b) > truncToInt a + truncToInt b
              ∧ (p = (((truncToInt a + 1 : ℤ) : ℚ), ((truncToInt b : ℤ) : ℚ))
                ∨ p = (((truncToInt a : ℤ) : ℚ), ((truncToInt b + 1 : ℤ) : ℚ))))))) :
    truncToInt (min 4 p.1) + truncToInt (min 4 p.2) = ⌊a + b⌋ := by
  have hsum0 : 0 ≤ a + b := by linarith
  have ta : truncToInt a = ⌊a⌋ := truncToInt_of_nonneg a ha
  have tb : truncToInt b = ⌊b⌋ := truncToInt_of_nonneg b hb
  have tab : truncToInt (a + b) = ⌊a + b⌋ := truncToInt_of_nonneg _ hsum0
  have fa4 : ⌊a⌋ ≤ 3 := by
    have : ⌊a⌋ < 4 := Int.floor_lt.mpr (by exact_mod_cast ha4)
    omega
  have fb4 : ⌊b⌋ ≤ 3 := by
    have : ⌊b⌋ < 4 := Int.floor_lt.mpr (by exact_mod_cast hb4)
    omega
  have fa0 : 0 ≤ ⌊a⌋ := Int.floor_nonneg.mpr ha
  have fb0 : 0 ≤ ⌊b⌋ := Int.floor_nonneg.mpr hb
  have one : truncToInt (min 4 (1 : ℚ)) = 1 := by
    have := clamp_int 1
    simpa using this
  have forced : truncToInt (a + b - 1) = ⌊a + b⌋ - 1 := by
    rw [truncToInt_of_nonneg _ (by linarith), Int.floor_sub_one]
  have hlow : a < 1 ∨ b < 1 → ⌊a + b⌋ ≤ 4 := by
    intro h
    have : ⌊a + b⌋ < 5 := Int.floor_lt.mpr (by push_cast; rcases h with h | h <;> linarith)
    omega
  have hpos : 1 ≤ ⌊a + b⌋ := Int.le_floor.mpr (by exact_mod_cast hab)
  rcases hp with ⟨h1, rfl⟩ | ⟨_, h1, rfl⟩ | ⟨ha1, hb1, hcase⟩
  · show truncToInt (min 4 (1 : ℚ)) + truncToInt (min 4 ((truncToInt (a + b - 1) : ℤ) : ℚ)) = _
    have := hlow (Or.inl h1)
    rw [one, forced, clamp_int]
    omega
  · show truncToInt (min 4 ((truncToInt (a + b - 1) : ℤ) : ℚ)) + truncToInt (min 4 (1 : ℚ)) = _
    have := hlow (Or.inr h1)
    rw [one, forced, clamp_int]
    omega
  · have l1 := Int.le_floor_add a b
    have l2 := Int.le_floor_add_floor a b
    rw [ta, tb, tab] at hcase
    rcases hcase with ⟨hr, rfl⟩ | ⟨hr, rfl | rfl⟩
    · show truncToInt (min 4 a) + truncToInt (min 4 b) = _
      rw [min_eq_right ha4.le, min_eq_right hb4.le, ta, tb]
      omega
    · show truncToInt (min 4 ((⌊a⌋ + 1 : ℤ) : ℚ)) + truncToInt (min 4 ((⌊b⌋ : ℤ) : ℚ)) = _
      rw [clamp_int, clamp_int]
      omega
    · show truncToInt (min 4 ((⌊a⌋ : ℤ) : ℚ)) + truncToInt (min 4 ((⌊b⌋ + 1 : ℤ) : ℚ)) = _
      rw [clamp_int, clamp_int]
      omega

theorem quantize_pair_0_1_shape (a b c : ℚ) :
    (a < 1 ∧ quantize_pair_0_1 a b c = (1, (truncToInt (a + b - 1) : ℚ)))
      ∨ (1 ≤ a ∧ b < 1 ∧ quantize_pair_0_1 a b c = ((truncToInt (a + b - 1) : ℚ), 1))
      ∨ (1 ≤ a ∧ 1 ≤ b
          ∧ ((¬ (truncToInt (a + b) > truncToInt a + truncToInt b)
              ∧ quantize_pair_0_1 a b c = (a, b))
            ∨ (truncToInt (a + b) > truncToInt a + truncToInt b
              ∧ (quantize_pair_0_1 a b c
                  = (((truncToInt a + 1 : ℤ) : ℚ), ((truncToInt b : ℤ) : ℚ))
                ∨ quantize_pair_0_1 a b c
                  = (((truncToInt a : ℤ) : ℚ), ((truncToInt b + 1 : ℤ) : ℚ)))))) := by
  rcases quantize_pair_0_1_cases a b c with h | h | ⟨ha, hb, _⟩
  · exact Or.inl h
  · exact Or.inr (Or.inl h)
  · exact Or.inr (Or.inr ⟨ha, hb, quantize_pair_0_1_round a b c ha hb⟩)

theorem quantize_pair_2_3_shape (a b : ℚ) :
    (a < 1 ∧ quantize_pair_2_3 a b = (1, (truncToInt (a + b - 1) : ℚ)))
      ∨ (1 ≤ a ∧ b < 1 ∧ quantize_pair_2_3 a b = ((truncToInt (a + b - 1) : ℚ), 1))
      ∨ (1 ≤ a ∧ 1 ≤ b
          ∧ ((¬ (truncToInt (a + b) > truncToInt a + truncToInt b)
              ∧ quantize_pair_2_3 a b = (a, b))
            ∨ (truncToInt (a + b) > truncToInt a + truncToInt b
              ∧ (quantize_pair_2_3 a b
                  = (((truncToInt a + 1 : ℤ) : ℚ), ((truncToInt b : ℤ) : ℚ))
                ∨ quantize_pair_2_3 a b
                  = (((truncToInt a : ℤ) : ℚ), ((truncToInt b + 1 : ℤ) : ℚ)))))) := by
  rcases quantize_pair_2_3_cases a b with h | h | ⟨ha, hb, _⟩
  · exact Or.inl h
  · exact Or.inr (Or.inl h)
  · exact Or.inr (Or.inr ⟨ha, hb, quantize_pair_2_3_round a b ha hb⟩)

/-- Both values a pair block leaves are at least `-1` when the two ratios are
not negative. -/
theorem pair_components_lower (a b : ℚ) (p : ℚ × ℚ) (ha : 0 ≤ a) (hb : 0 ≤ b)
    (hp : (a < 1 ∧ p = (1, (truncToInt (a + b - 1) : ℚ)))
      ∨ (1 ≤ a ∧ b < 1 ∧ p = ((truncToInt (a + b - 1) : ℚ), 1))
      ∨ (1 ≤ a ∧ 1 ≤ b
          ∧ (p.1 = a ∨ p.1 = (truncToInt a : ℚ) ∨ p.1 = ((truncToInt a + 1 : ℤ) : ℚ))
          ∧ (p.2 = b ∨ p.2 = (truncToInt b : ℚ) ∨ p.2 = ((truncToInt b + 1 : ℤ) : ℚ)))) :
    (-1 ≤ truncToInt (min 4 p.1) ∧ truncToInt (min 4 p.1) ≤ 4)
      ∧ (-1 ≤ truncToInt (min 4 p.2) ∧ truncToInt (min 4 p.2) ≤ 4) := by
  have forced : (-1 : ℚ) ≤ (truncToInt (a + b - 1) : ℚ) := by
    have := truncToInt_ge_neg_one (a + b - 1) (by linarith)
    exact_mod_cast this
  have ta : (0 : ℚ) ≤ (truncToInt a : ℚ) := by
    rw [truncToInt_of_nonneg a ha]
    exact_mod_cast Int.floor_nonneg.mpr ha
  have tb : (0 : ℚ) ≤ (truncToInt b : ℚ) := by
    rw [truncToInt_of_nonneg b hb]
    exact_mod_cast Int.floor_nonneg.mpr hb
  rcases hp with ⟨_, rfl⟩ | ⟨_, _, rfl⟩ | ⟨_, _, h1, h2⟩
  · exact ⟨clamp_bounds _ (by norm_num), clamp_bounds _ forced⟩
  · exact ⟨clamp_bounds _ forced, clamp_bounds _ (by norm_num)⟩
  · refine ⟨clamp_bounds _ ?_, clamp_bounds _ ?_⟩
    · rcases h1 with h | h | h <;> rw [h]
      · linarith
      · linarith
      · push_cast; linarith
    · rcases h2 with h | h | h <;> rw [h]
      · linarith
      · linarith
      · push_cast; linarith

/-- C17. For a module width `h > 0` and run lengths that are not negative, the
pattern code is `c0*1000 + c1*100 + c2*10 + c3` with every component in
[-1, 4], and a pair whose two ratios are below 4 and add up to at least one
module keeps its truncated total: `c0 + c1 = floor ((l_0 + l_1) / h)`, and
likewise `c2 + c3 = floor ((l_2 + l_3) / h)`. -/
theorem pair_width_preserved (h : ℚ) (l_0 l_1 l_2 l_3 : ℤ) (hh : 0 < h)
    (h0 : 0 ≤ l_0) (h1 : 0 ≤ l_1) (h2 : 0 ≤ l_2) (h3 : 0 ≤ l_3) :
    ∃ c0 c1 c2 c3 : ℤ,
      decode_single_number h l_0 l_1 l_2 l_3 = c0 * 1000 + c1 * 100 + c2 * 10 + c3
        ∧ (-1 ≤ c0 ∧ c0 ≤ 4) ∧ (-1 ≤ c1 ∧ c1 ≤ 4) ∧ (-1 ≤ c2 ∧ c2 ≤ 4) ∧ (-1 ≤ c3 ∧ c3 ≤ 4)
        ∧ ((l_0 : ℚ) / h < 4 → (l_1 : ℚ) / h < 4 → 1 ≤ ((l_0 : ℚ) + l_1) / h →
            c0 + c1 = ⌊((l_0 : ℚ) + l_1) / h⌋)
        ∧ ((l_2 : ℚ) / h < 4 → (l_3 : ℚ) / h < 4 → 1 ≤ ((l_2 : ℚ) + l_3) / h →
            c2 + c3 = ⌊((l_2 : ℚ) + l_3) / h⌋) := by
  have q0 : (0 : ℚ) ≤ l_0 / h := div_nonneg (by exact_mod_cast h0) hh.le
  have q1 : (0 : ℚ) ≤ l_1 / h := div_nonneg (by exact_mod_cast h1) hh.le
  have q2 : (0 : ℚ) ≤ l_2 / h := div_nonneg (by exact_mod_cast h2) hh.le
  have q3 : (0 : ℚ) ≤ l_3 / h := div_nonneg (by exact_mod_cast h3) hh.le
  obtain ⟨a0, a1⟩ := pair_components_lower _ _ _ q0 q1
    (quantize_pair_0_1_cases (l_0 / h) (l_1 / h) (l_2 / h))
  obtain ⟨a2, a3⟩ := pair_components_lower _ _ _ q2 q3
    (quantize_pair_2_3_cases (l_2 / h) (l_3 / h))
  refine ⟨_, _, _, _, by unfold decode_single_number; rfl, a0, a1, a2, a3, ?_, ?_⟩
  · intro b0 b1 bs
    rw [add_div] at bs ⊢
    exact pair_components_sum _ _ _ q0 q1 b0 b1 bs (quantize_pair_0_1_shape _ _ _)
  · intro b2 b3 bs
    rw [add_div] at bs ⊢
    exact pair_components_sum _ _ _ q2 q3 b2 b3 bs (quantize_pair_2_3_shape _ _)

theorem pair_width_preserved_witness :
    decode_single_number 3 4 5 2 7 = 1212
      ∧ ∃ c0 c1 c2 c3 : ℤ,
        decode_single_number 3 4 5 2 7 = c0 * 1000 + c1 * 100 + c2 * 10 + c3
          ∧ (-1 ≤ c0 ∧ c0 ≤ 4) ∧ (-1 ≤ c1 ∧ c1 ≤ 4) ∧ (-1 ≤ c2 ∧ c2 ≤ 4) ∧ (-1 ≤ c3 ∧ c3 ≤ 4)
          ∧ (((4 : ℤ) : ℚ) / 3 < 4 → ((5 : ℤ) : ℚ) / 3 < 4 → 1 ≤ (((4 : ℤ) : ℚ) + (5 : ℤ)) / 3 →
              c0 + c1 = ⌊(((4 : ℤ) : ℚ) + (5 : ℤ)) / 3⌋)
          ∧ (((2 : ℤ) : ℚ) / 3 < 4 → ((7 : ℤ) : ℚ) / 3 < 4 → 1 ≤ (((2 : ℤ) : ℚ) + (7 : ℤ)) / 3 →
              c2 + c3 = ⌊(((2 : ℤ) : ℚ) + (7 : ℤ)) / 3⌋) :=
  ⟨by decide!,
    pair_width_preserved 3 4 5 2 7 (by norm_num) (by decide) (by decide) (by decide) (by decide)⟩

/-! ## Binary32 rounding of whole numbers -/

theorem log2_loop_spec (fuel : ℕ) :
    ∀ n : ℕ, 1 ≤ n → n ≤ fuel →
      2 ^ log2_loop fuel n ≤ n ∧ n < 2 ^ (log2_loop fuel n + 1) := by
  induction fuel with
  | zero => intro n h1 h2; omega
  | succ fuel ih =>
      intro n h1 h2
      rw [log2_loop]
      by_cases h : 2 ≤ n
      · simp only [h, if_true]
        obtain ⟨i1, i2⟩ := ih (n / 2) (by omega) (by omega)
        rw [Nat.pow_succ] at i2 ⊢
        constructor
        · omega
        · rw [Nat.pow_succ]
          omega
      · simp only [h, if_false]
        have : n = 1 := by omega
        subst this
        decide

theorem pow2_natCast (k : ℕ) : pow2 (k : ℤ) = ((2 ^ k : ℕ) : ℚ) := by
  unfold pow2
  simp

theorem pow2_neg_natCast (j : ℕ) : pow2 (-(j : ℤ)) = 1 / ((2 ^ j : ℕ) : ℚ) := by
  unfold pow2
  by_cases h : j = 0
  · subst h
    simp
  · have : ¬ (0 : ℤ) ≤ -(j : ℤ) := by omega
    simp only [this, if_false, neg_neg, Int.toNat_ofNat]

theorem round_half_even_intCast (z : ℤ) : round_half_even (z : ℚ) = z := by
  unfold round_half_even
  simp

/-- The binade of a whole number `n ≥ 1` is its binary logarithm. -/
theorem binade_natCast (n : ℕ) (hn : 1 ≤ n) : binade (n : ℚ) = (log2_loop n n : ℤ) := by
  have hspec := (log2_loop_spec n n hn (le_refl n)).1
  have h1 : log2_loop 1 1 = 0 := by decide
  have hnn : ¬ ((n : ℚ) < 0) := not_lt.mpr (by exact_mod_cast Nat.zero_le n)
  unfold binade
  simp only [Rat.num_natCast, Rat.den_natCast, Int.natAbs_ofNat, h1, Nat.cast_zero, sub_zero,
    hnn, if_false]
  rw [pow2_natCast]
  have : ((2 ^ log2_loop n n : ℕ) : ℚ) ≤ (n : ℚ) := by exact_mod_cast hspec
  simp only [this, if_true]

/-- Every whole number up to `2 ^ 24` is a binary32 value. -/
theorem round_f32_natCast (n : ℕ) (hn : n ≤ 2 ^ 24) : round_f32 (n : ℚ) = (n : ℚ) := by
  by_cases h0 : n = 0
  · subst h0
    simp [round_f32]
  by_cases h24 : n = 2 ^ 24
  · subst h24
    decide!
  have hn1 : 1 ≤ n := by omega
  obtain ⟨s1, _⟩ := log2_loop_spec n n hn1 (le_refl n)
  have hk : log2_loop n n ≤ 23 := by
    by_contra hcon
    have h24le : 24 ≤ log2_loop n n := by omega
    have : 2 ^ 24 ≤ 2 ^ log2_loop n n := Nat.pow_le_pow_right (by norm_num) h24le
    omega
  obtain ⟨j, hj⟩ : ∃ j : ℕ, (log2_loop n n : ℤ) - 23 = -(j : ℤ) :=
    ⟨23 - log2_loop n n, by omega⟩
  have hx : (n : ℚ) ≠ 0 := by exact_mod_cast h0
  have hmax : max (log2_loop n n : ℤ) (-126) = (log2_loop n n : ℤ) := by
    apply max_eq_left
    omega
  unfold round_f32
  simp only [hx, if_false, binade_natCast n hn1, hmax, hj, pow2_neg_natCast]
  have hpos : ((2 ^ j : ℕ) : ℚ) ≠ 0 := by
    have : 0 < 2 ^ j := pow_pos (by norm_num) j
    exact_mod_cast this.ne'
  have e : (n : ℚ) / (1 / ((2 ^ j : ℕ) : ℚ)) = (((n * 2 ^ j : ℕ) : ℤ) : ℚ) := by
    push_cast
    field_simp
  rw [e, round_half_even_intCast]
  push_cast
  field_simp

theorem round_f32_intCast (z : ℤ) (h0 : 0 ≤ z) (hz : z ≤ 2 ^ 24) :
    round_f32 ((z : ℤ) : ℚ) = (z : ℚ) := by
  obtain ⟨n, rfl⟩ := Int.eq_ofNat_of_zero_le h0
  have : n ≤ 2 ^ 24 := by exact_mod_cast hz
  have := round_f32_natCast n this
  simpa using this

/-! ## Rounding to binary32 goes to a nearest value -/

theorem pow2_eq_zpow (e : ℤ) : pow2 e = (2 : ℚ) ^ e := by
  unfold pow2
  by_cases h : 0 ≤ e
  · simp only [h, if_true]
    obtain ⟨n, rfl⟩ := Int.eq_ofNat_of_zero_le h
    simp
  · simp only [h, if_false]
    obtain ⟨n, hn⟩ : ∃ n : ℕ, e = -(n : ℤ) := ⟨(-e).toNat, by omega⟩
    subst hn
    simp

theorem pow2_pos (e : ℤ) : 0 < pow2 e := by
  rw [pow2_eq_zpow]
  positivity

/-- The definition `binade` finds the binary exponent of a rational `x ≠ 0`. -/
theorem binade_spec (x : ℚ) (hx : x ≠ 0) :
    pow2 (binade x) ≤ |x| ∧ |x| < pow2 (binade x + 1) := by
  have hp : 1 ≤ x.num.natAbs := by
    have : x.num ≠ 0 := Rat.num_ne_zero.mpr hx
    omega
  have hd : 1 ≤ x.den := x.den_pos
  obtain ⟨a1, a2⟩ := log2_loop_spec _ _ hp (le_refl _)
  obtain ⟨b1, b2⟩ := log2_loop_spec _ _ hd (le_refl _)
  have habs : |x| = (x.num.natAbs : ℚ) / (x.den : ℚ) := by
    conv_lhs => rw [← Rat.num_div_den x]
    rw [abs_div, Nat.abs_cast]
    congr 1
    rw [Nat.cast_natAbs, Int.cast_abs]
  have hite : (if x < 0 then -x else x) = |x| := by
    by_cases h : x < 0
    · simp only [h, if_true, abs_of_neg h]
    · simp only [h, if_false, abs_of_nonneg (not_lt.mp h)]
  have hdq : (0 : ℚ) < (x.den : ℚ) := by exact_mod_cast x.den_pos
  have A1 : ((2 : ℚ) ^ (log2_loop x.num.natAbs x.num.natAbs : ℤ)) ≤ (x.num.natAbs : ℚ) := by
    rw [zpow_natCast]
    exact_mod_cast a1
  have A2 : (x.num.natAbs : ℚ) < (2 : ℚ) ^ ((log2_loop x.num.natAbs x.num.natAbs : ℤ) + 1) := by
    have : (x.num.natAbs : ℚ) < ((2 ^ (log2_loop x.num.natAbs x.num.natAbs + 1) : ℕ) : ℚ) := by
      exact_mod_cast a2
    rw [show ((log2_loop x.num.natAbs x.num.natAbs : ℤ) + 1)
        = ((log2_loop x.num.natAbs x.num.natAbs + 1 : ℕ) : ℤ) by push_cast; ring, zpow_natCast]
    simpa using this
  have B1 : ((2 : ℚ) ^ (log2_loop x.den x.den : ℤ)) ≤ (x.den : ℚ) := by
    rw [zpow_natCast]
    exact_mod_cast b1
  have B2 : (x.den : ℚ) < (2 : ℚ) ^ ((log2_loop x.den x.den : ℤ) + 1) := by
    have : (x.den : ℚ) < ((2 ^ (log2_loop x.den x.den + 1) : ℕ) : ℚ) := by
      exact_mod_cast b2
    rw [show ((log2_loop x.den x.den : ℤ) + 1)
        = ((log2_loop x.den x.den + 1 : ℕ) : ℤ) by push_cast; ring, zpow_natCast]
    simpa using this
  unfold binade
  simp only [hite, pow2_eq_zpow]
  generalize (log2_loop x.num.natAbs x.num.natAbs : ℤ) = a at A1 A2 ⊢
  generalize (log2_loop x.den x.den : ℤ) = b at B1 B2 ⊢
  have two : (2 : ℚ) ≠ 0 := by norm_num
  have hb0 : (0 : ℚ) < (2 : ℚ) ^ b := by positivity
  have hb1 : (0 : ℚ) < (2 : ℚ) ^ (b + 1) := by positivity
  -- the two outer bounds `2 ^ (a - b - 1) < |x| < 2 ^ (a - b + 1)`
  have lower : (2 : ℚ) ^ (a - b - 1) < |x| := by
    rw [habs, lt_div_iff₀ hdq]
    have e : (2 : ℚ) ^ (a - b - 1) * (2 : ℚ) ^ (b + 1) = (2 : ℚ) ^ a := by
      rw [← zpow_add₀ two]
      congr 1
      ring
    have hpos : (0 : ℚ) < (2 : ℚ) ^ (a - b - 1) := by positivity
    calc (2 : ℚ) ^ (a - b - 1) * (x.den : ℚ)
        < (2 : ℚ) ^ (a - b - 1) * (2 : ℚ) ^ (b + 1) := by
          exact mul_lt_mul_of_pos_left B2 hpos
      _ = (2 : ℚ) ^ a := e
      _ ≤ _ := A1
  have upper : |x| < (2 : ℚ) ^ (a - b + 1) := by
    rw [habs, div_lt_iff₀ hdq]
    have e : (2 : ℚ) ^ (a - b + 1) * (2 : ℚ) ^ b = (2 : ℚ) ^ (a + 1) := by
      rw [← zpow_add₀ two]
      congr 1
      ring
    have hpos : (0 : ℚ) < (2 : ℚ) ^ (a - b + 1) := by positivity
    calc (x.num.natAbs : ℚ) < (2 : ℚ) ^ (a + 1) := A2
      _ = (2 : ℚ) ^ (a - b + 1) * (2 : ℚ) ^ b := e.symm
      _ ≤ (2 : ℚ) ^ (a - b + 1) * (x.den : ℚ) := by
          exact mul_le_mul_of_nonneg_left B1 hpos.le
  by_cases hc : (2 : ℚ) ^ (a - b) ≤ |x|
  · simp only [hc, if_true]
    exact ⟨trivial, upper⟩
  · simp only [hc, if_false]
    refine ⟨lower.le, ?_⟩
    rw [show a - b - 1 + 1 = a - b by ring]
    exact not_le.mp hc

theorem round_half_even_near (y : ℚ) : |(round_half_even y : ℚ) - y| ≤ 1 / 2 := by
  have h1 := Int.floor_le y
  have h2 := Int.lt_floor_add_one y
  unfold round_half_even
  rw [abs_le]
  split_ifs <;> push_cast <;> constructor <;> linarith

/-- The value `round_f32 x` is a whole multiple of the spacing of the binade of
`x` and lies within half that spacing of `x`: it is a nearest binary32
value. -/
theorem round_f32_near (x : ℚ) (hx : x ≠ 0) :
    (∃ n : ℤ, round_f32 x = n * pow2 (max (binade x) (-126) - 23))
      ∧ |round_f32 x - x| ≤ pow2 (max (binade x) (-126) - 23) / 2 := by
  have hq := pow2_pos (max (binade x) (-126) - 23)
  unfold round_f32
  simp only [hx, if_false]
  refine ⟨⟨_, rfl⟩, ?_⟩
  generalize pow2 (max (binade x) (-126) - 23) = q at hq
  have h := round_half_even_near (x / q)
  have e : (round_half_even (x / q) : ℚ) * q - x = ((round_half_even (x / q) : ℚ) - x / q) * q := by
    field_simp
  rw [e, abs_mul, abs_of_pos hq]
  calc |(round_half_even (x / q) : ℚ) - x / q| * q ≤ 1 / 2 * q :=
        mul_le_mul_of_nonneg_right h hq.le
    _ = q / 2 := by ring

theorem floor_le_round_half_even (y : ℚ) : ⌊y⌋ ≤ round_half_even y := by
  unfold round_half_even
  split_ifs <;> omega

/-- Rounding a whole number `n ≥ 4` to binary32 gives at least 4. -/
theorem four_le_round_f32_natCast (n : ℕ) (hn : 4 ≤ n) : (4 : ℚ) ≤ round_f32 (n : ℚ) := by
  by_cases hsmall : n ≤ 2 ^ 24
  · rw [round_f32_natCast n hsmall]
    exact_mod_cast hn
  have hn1 : 1 ≤ n := by omega
  obtain ⟨s1, s2⟩ := log2_loop_spec n n hn1 (le_refl n)
  have hk : 24 ≤ log2_loop n n := by
    by_contra hcon
    have : log2_loop n n + 1 ≤ 24 := by omega
    have : 2 ^ (log2_loop n n + 1) ≤ 2 ^ 24 := Nat.pow_le_pow_right (by norm_num) this
    omega
  obtain ⟨j, hj⟩ : ∃ j : ℕ, log2_loop n n = j + 23 := ⟨log2_loop n n - 23, by omega⟩
  have hx : (n : ℚ) ≠ 0 := by
    have : n ≠ 0 := by omega
    exact_mod_cast this
  have hmax : max (log2_loop n n : ℤ) (-126) = (log2_loop n n : ℤ) := by
    apply max_eq_left
    omega
  have he : (log2_loop n n : ℤ) - 23 = (j : ℤ) := by omega
  unfold round_f32
  simp only [hx, if_false, binade_natCast n hn1, hmax, he, pow2_natCast]
  have hq : (0 : ℚ) < ((2 ^ j : ℕ) : ℚ) := by
    have : 0 < 2 ^ j := pow_pos (by norm_num) j
    exact_mod_cast this
  have hq1 : (1 : ℚ) ≤ ((2 ^ j : ℕ) : ℚ) := by
    have : 1 ≤ 2 ^ j := Nat.one_le_two_pow
    exact_mod_cast this
  have hy : (((2 ^ 23 : ℕ) : ℤ) : ℚ) ≤ (n : ℚ) / ((2 ^ j : ℕ) : ℚ) := by
    rw [le_div_iff₀ hq]
    rw [hj, Nat.pow_add, Nat.mul_comm] at s1
    exact_mod_cast s1
  have hf : ((2 ^ 23 : ℕ) : ℤ) ≤ round_half_even ((n : ℚ) / ((2 ^ j : ℕ) : ℚ)) :=
    le_trans (Int.le_floor.mpr hy) (floor_le_round_half_even _)
  have hf4 : (4 : ℤ) ≤ round_half_even ((n : ℚ) / ((2 ^ j : ℕ) : ℚ)) :=
    le_trans (by norm_num) hf
  have hfq : (4 : ℚ) ≤ (round_half_even ((n : ℚ) / ((2 ^ j : ℕ) : ℚ)) : ℚ) := by
    exact_mod_cast hf4
  nlinarith

/-- The clamp `std::min (4.f, .)` and the final cast, applied to an `int` `n ≥ 0`
stored in a `float`, give `min (4, n)`. -/
theorem clamp_round_int (z : ℤ) (hz : 0 ≤ z) :
    truncToInt (min 4 (round_f32 ((z : ℤ) : ℚ))) = min 4 z := by
  by_cases h4 : z ≤ 4
  · rw [round_f32_intCast z hz (le_trans h4 (by norm_num))]
    exact clamp_int z
  · obtain ⟨n, rfl⟩ := Int.eq_ofNat_of_zero_le hz
    have hn : 4 ≤ n := by omega
    have h := four_le_round_f32_natCast n hn
    have e : min 4 (round_f32 (((n : ℕ) : ℤ) : ℚ)) = ((4 : ℤ) : ℚ) := by
      rw [min_eq_left]
      · norm_num
      · simpa using h
    rw [e, truncToInt_intCast]
    omega

/-! ## The quantizer in binary32 at whole numbers of modules -/

theorem ratio_float_whole (m k : ℕ) (hm : 1 ≤ m) (hk : k ≤ 4)
    (hrm : round_f32 (m : ℚ) = (m : ℚ))
    (hrk : round_f32 (((k * m : ℕ) : ℤ) : ℚ) = (((k * m : ℕ) : ℤ) : ℚ)) :
    ratio_float (round_f32 (m : ℚ)) ((k * m : ℕ) : ℤ) = (k : ℚ) := by
  have hm0 : (m : ℚ) ≠ 0 := by
    have : 0 < m := hm
    exact_mod_cast this.ne'
  have e : (((k * m : ℕ) : ℤ) : ℚ) / (m : ℚ) = (k : ℚ) := by
    push_cast
    field_simp
  unfold ratio_float
  rw [hrk, hrm, e]
  exact round_f32_natCast k (le_trans hk (by norm_num))

theorem quantize_pair_0_1_float_whole (a b : ℕ) (c : ℚ) (ha : 1 ≤ a ∧ a ≤ 4)
    (hb : 1 ≤ b ∧ b ≤ 4) :
    quantize_pair_0_1_float (a : ℚ) (b : ℚ) c = ((a : ℚ), (b : ℚ)) := by
  have ha1 : ¬ ((a : ℚ) < 1) := not_lt.mpr (by exact_mod_cast ha.1)
  have hb1 : ¬ ((b : ℚ) < 1) := not_lt.mpr (by exact_mod_cast hb.1)
  have hab : a + b ≤ 2 ^ 24 := le_trans (Nat.add_le_add ha.2 hb.2) (by norm_num)
  have hs : truncToInt (round_f32 ((a : ℚ) + (b : ℚ))) = (a : ℤ) + (b : ℤ) := by
    have h1 := round_f32_natCast (a + b) hab
    have h2 := truncToInt_natCast (a + b)
    push_cast at h1 h2
    rw [h1, h2]
  unfold quantize_pair_0_1_float
  simp [ha1, hb1, hs, truncToInt_natCast]

theorem quantize_pair_2_3_float_whole (a b : ℕ) (ha : 1 ≤ a ∧ a ≤ 4) (hb : 1 ≤ b ∧ b ≤ 4) :
    quantize_pair_2_3_float (a : ℚ) (b : ℚ) = ((a : ℚ), (b : ℚ)) := by
  have ha1 : ¬ ((a : ℚ) < 1) := not_lt.mpr (by exact_mod_cast ha.1)
  have hb1 : ¬ ((b : ℚ) < 1) := not_lt.mpr (by exact_mod_cast hb.1)
  have hab : a + b ≤ 2 ^ 24 := le_trans (Nat.add_le_add ha.2 hb.2) (by norm_num)
  have hs : truncToInt (round_f32 ((a : ℚ) + (b : ℚ))) = (a : ℤ) + (b : ℤ) := by
    have h1 := round_f32_natCast (a + b) hab
    have h2 := truncToInt_natCast (a + b)
    push_cast at h1 h2
    rw [h1, h2]
  unfold quantize_pair_2_3_float
  simp [ha1, hb1, hs, truncToInt_natCast]

theorem clamp_whole (k : ℕ) (hk : k ≤ 4) : truncToInt (min 4 (k : ℚ)) = k := by
  have : min 4 (k : ℚ) = (k : ℚ) := min_eq_right (by exact_mod_cast hk)
  rw [this, truncToInt_natCast]

set_option maxRecDepth 100000 in
/-- C9, as stated, fails in `float` arithmetic: the module width `m = 5592407`
is a binary32 value, but the run length `3 * m = 16777221` lies above `2 ^ 24`
and is converted to `16777220`, so the first ratio comes out below 3 and the
runs of 3, 1, 1, 2 modules give the pattern code 2112, not 3112. -/
theorem quantizer_boundary_float_counterexample :
    round_f32 ((5592407 : ℕ) : ℚ) = ((5592407 : ℕ) : ℚ)
      ∧ round_f32 (((3 * 5592407 : ℕ) : ℤ) : ℚ) = 16777220
      ∧ decode_single_number_float (round_f32 ((5592407 : ℕ) : ℚ)) ((3 * 5592407 : ℕ) : ℤ)
          ((1 * 5592407 : ℕ) : ℤ) ((1 * 5592407 : ℕ) : ℤ) ((2 * 5592407 : ℕ) : ℤ) = 2112
      ∧ decode_single_number_float (round_f32 ((5592407 : ℕ) : ℚ)) ((3 * 5592407 : ℕ) : ℤ)
          ((1 * 5592407 : ℕ) : ℤ) ((1 * 5592407 : ℕ) : ℤ) ((2 * 5592407 : ℕ) : ℤ)
        ≠ ((3 * 1000 + 1 * 100 + 1 * 10 + 2 : ℕ) : ℤ) := by
  decide!

/-- C9, amended. For an integer module width `m ≥ 1` and `k0`, `k1`, `k2`, `k3`
from 1 to 4 such that `m` and the four run lengths `k0 * m`, `k1 * m`,
`k2 * m`, `k3 * m` are binary32 values (conversion to `float` leaves them
unchanged), `decode_single_number`, computing in `float`, returns
`k0*1000 + k1*100 + k2*10 + k3`. -/
theorem quantizer_boundary_float (m k0 k1 k2 k3 : ℕ) (hm : 1 ≤ m)
    (h0 : 1 ≤ k0 ∧ k0 ≤ 4) (h1 : 1 ≤ k1 ∧ k1 ≤ 4) (h2 : 1 ≤ k2 ∧ k2 ≤ 4) (h3 : 1 ≤ k3 ∧ k3 ≤ 4)
    (hrm : round_f32 (m : ℚ) = (m : ℚ))
    (hr0 : round_f32 (((k0 * m : ℕ) : ℤ) : ℚ) = (((k0 * m : ℕ) : ℤ) : ℚ))
    (hr1 : round_f32 (((k1 * m : ℕ) : ℤ) : ℚ) = (((k1 * m : ℕ) : ℤ) : ℚ))
    (hr2 : round_f32 (((k2 * m : ℕ) : ℤ) : ℚ) = (((k2 * m : ℕ) : ℤ) : ℚ))
    (hr3 : round_f32 (((k3 * m : ℕ) : ℤ) : ℚ) = (((k3 * m : ℕ) : ℤ) : ℚ)) :
    decode_single_number_float (round_f32 (m : ℚ)) ((k0 * m : ℕ) : ℤ) ((k1 * m : ℕ) : ℤ)
        ((k2 * m : ℕ) : ℤ) ((k3 * m : ℕ) : ℤ)
      = ((k0 * 1000 + k1 * 100 + k2 * 10 + k3 : ℕ) : ℤ) := by
  unfold decode_single_number_float quantized_components_float
  simp only [ratio_float_whole m k0 hm h0.2 hrm hr0, ratio_float_whole m k1 hm h1.2 hrm hr1,
    ratio_float_whole m k2 hm h2.2 hrm hr2, ratio_float_whole m k3 hm h3.2 hrm hr3]
  rw [quantize_pair_0_1_float_whole k0 k1 _ h0 h1, quantize_pair_2_3_float_whole k2 k3 h2 h3]
  simp only [clamp_whole k0 h0.2, clamp_whole k1 h1.2, clamp_whole k2 h2.2, clamp_whole k3 h3.2]
  push_cast
  ring

set_option maxRecDepth 100000 in
theorem quantizer_boundary_float_witness :
    decode_single_number_float (round_f32 ((5592405 : ℕ) : ℚ)) ((3 * 5592405 : ℕ) : ℤ)
        ((1 * 5592405 : ℕ) : ℤ) ((2 * 5592405 : ℕ) : ℤ) ((4 * 5592405 : ℕ) : ℤ)
      = ((3 * 1000 + 1 * 100 + 2 * 10 + 4 : ℕ) : ℤ) :=
  quantizer_boundary_float 5592405 3 1 2 4 (by decide) (by decide) (by decide) (by decide) (by decide)
    (by decide!) (by decide!) (by decide!) (by decide!) (by decide!)

/-! ## The two pair blocks in binary32 -/

/-- Away from a tie that needs rounding, the two pair blocks compute the same
function of their two ratios, in binary32 as well. -/
theorem quantize_pair_float_same (a b c : ℚ)
    (h : ¬ (1 ≤ a ∧ 1 ≤ b
          ∧ truncToInt (round_f32 (a + b)) > truncToInt a + truncToInt b
          ∧ round_f32 (a - round_f32 (truncToInt a : ℤ))
              = round_f32 (b - round_f32 (truncToInt b : ℤ)))) :
    quantize_pair_0_1_float a b c = quantize_pair_2_3_float a b := by
  unfold quantize_pair_0_1_float quantize_pair_2_3_float
  simp only []
  by_cases ha : a < 1
  · simp only [ha, true_or, if_true]
  · by_cases hb : b < 1
    · simp only [ha, hb, or_true, if_true, if_false]
    · simp only [ha, hb, or_self, if_false]
      by_cases hr : truncToInt (round_f32 (a + b)) > truncToInt a + truncToInt b
      · simp only [hr, if_true]
        by_cases hgt : round_f32 (a - round_f32 (truncToInt a : ℤ))
            > round_f32 (b - round_f32 (truncToInt b : ℤ))
        · simp only [hgt, if_true]
        · simp only [hgt, if_false]
          by_cases hlt : round_f32 (a - round_f32 (truncToInt a : ℤ))
              < round_f32 (b - round_f32 (truncToInt b : ℤ))
          · simp only [hlt, if_true]
          · exfalso
            apply h
            exact ⟨not_lt.mp ha, not_lt.mp hb, hr, le_antisymm (not_lt.mp hgt) (not_lt.mp hlt)⟩
      · simp only [hr, if_false]

/-- In a tie that needs rounding, on the runs `a, b, a, b`, the first block
raises its first ratio and the second block its second ratio. -/
theorem quantize_pair_float_tie (a b : ℚ) (ha : 1 ≤ a) (hb : 1 ≤ b)
    (hr : truncToInt (round_f32 (a + b)) > truncToInt a + truncToInt b)
    (ht : round_f32 (a - round_f32 (truncToInt a : ℤ))
            = round_f32 (b - round_f32 (truncToInt b : ℤ))) :
    quantize_pair_0_1_float a b a
        = (round_f32 ((truncToInt a + 1 : ℤ) : ℚ), round_f32 ((truncToInt b : ℤ) : ℚ))
      ∧ quantize_pair_2_3_float a b
        = (round_f32 ((truncToInt a : ℤ) : ℚ), round_f32 ((truncToInt b + 1 : ℤ) : ℚ)) := by
  have ha1 : ¬ a < 1 := not_lt.mpr ha
  have hb1 : ¬ b < 1 := not_lt.mpr hb
  have hgt : ¬ (round_f32 (a - round_f32 (truncToInt a : ℤ))
      > round_f32 (b - round_f32 (truncToInt b : ℤ))) := by rw [ht]; exact lt_irrefl _
  have hlt : ¬ (round_f32 (a - round_f32 (truncToInt a : ℤ))
      < round_f32 (b - round_f32 (truncToInt b : ℤ))) := by rw [ht]; exact lt_irrefl _
  have hr2 : truncToInt (round_f32 (b + a)) > truncToInt b + truncToInt a := by
    rw [add_comm b a, add_comm (truncToInt b)]
    exact hr
  constructor
  · unfold quantize_pair_0_1_float
    simp only [ha1, hb1, or_self, if_false, hr, if_true, hgt, hlt, hr2]
  · unfold quantize_pair_2_3_float
    simp only [ha1, hb1, or_self, if_false, hr, if_true, hgt]

theorem truncToInt_pos_of_one_le (x : ℚ) (hx : 1 ≤ x) : 1 ≤ truncToInt x := by
  rw [truncToInt_of_nonneg x (by linarith)]
  exact Int.le_floor.mpr (by exact_mod_cast hx)

/-- C18, as stated, fails, in `float` arithmetic as in exact arithmetic: at
module width 2 the runs 3, 3, 3, 3 give the components 2, 1, 1, 2, pattern code
2112, whose first two components are not its last two. -/
theorem same_rule_float_counterexample :
    quantized_components_float 2 3 3 3 3 = (2, 1, 1, 2)
      ∧ decode_single_number_float 2 3 3 3 3 = 2112
      ∧ ¬ ((quantized_components_float 2 3 3 3 3).1
              = (quantized_components_float 2 3 3 3 3).2.2.1
            ∧ (quantized_components_float 2 3 3 3 3).2.1
              = (quantized_components_float 2 3 3 3 3).2.2.2) := by
  decide!

/-- C18, amended. For a `float` module width `h > 0` and positive run lengths
`a`, `b` whose ratios, and their sum, stay below `2 ^ 31` (where the casts to
`int` are defined), the components `c0, c1, c2, c3` of the code of the runs
`a, b, a, b`, computed in `float`, satisfy `c0 = c2` and `c1 = c3`, unless both
ratios are at least 1, truncating each loses a module against truncating their
sum, and the two remainders `hl - (int) hl` are equal as computed; in that tied
case the first pair raises its first ratio and the second pair its second
ratio, so that the components are `min (4, (int) hl_0 + 1)`,
`min (4, (int) hl_1)`, `min (4, (int) hl_0)`, `min (4, (int) hl_1 + 1)`.  The
two blocks are the same code apart from the tie branch, so the proof rests on
the tie condition alone; the bounds delimit the inputs the model covers. -/
theorem same_rule_float (h : ℚ) (a b : ℤ) (_hh : 0 < h) (_ha : 0 < a) (_hb : 0 < b)
    (_hra : ratio_float h a < 2 ^ 31) (_hrb : ratio_float h b < 2 ^ 31)
    (_hrs : round_f32 (ratio_float h a + ratio_float h b) < 2 ^ 31) :
    (¬ (1 ≤ ratio_float h a ∧ 1 ≤ ratio_float h b
          ∧ truncToInt (round_f32 (ratio_float h a + ratio_float h b))
              > truncToInt (ratio_float h a) + truncToInt (ratio_float h b)
          ∧ round_f32 (ratio_float h a - round_f32 (truncToInt (ratio_float h a) : ℤ))
              = round_f32 (ratio_float h b - round_f32 (truncToInt (ratio_float h b) : ℤ))) →
        (quantized_components_float h a b a b).1 = (quantized_components_float h a b a b).2.2.1
          ∧ (quantized_components_float h a b a b).2.1
              = (quantized_components_float h a b a b).2.2.2)
      ∧ ((1 ≤ ratio_float h a ∧ 1 ≤ ratio_float h b
          ∧ truncToInt (round_f32 (ratio_float h a + ratio_float h b))
              > truncToInt (ratio_float h a) + truncToInt (ratio_float h b)
          ∧ round_f32 (ratio_float h a - round_f32 (truncToInt (ratio_float h a) : ℤ))
              = round_f32 (ratio_float h b - round_f32 (truncToInt (ratio_float h b) : ℤ))) →
        quantized_components_float h a b a b
          = (min 4 (truncToInt (ratio_float h a) + 1), min 4 (truncToInt (ratio_float h b)),
              min 4 (truncToInt (ratio_float h a)), min 4 (truncToInt (ratio_float h b) + 1))) := by
  constructor
  · intro hnt
    have hsame := quantize_pair_float_same (ratio_float h a) (ratio_float h b) (ratio_float h a) hnt
    unfold quantized_components_float
    simp only [hsame, and_self]
  · rintro ⟨h1, h2, hr, ht⟩
    obtain ⟨e1, e2⟩ := quantize_pair_float_tie _ _ h1 h2 hr ht
    have ta := truncToInt_pos_of_one_le _ h1
    have tb := truncToInt_pos_of_one_le _ h2
    unfold quantized_components_float
    simp only [e1, e2]
    rw [clamp_round_int _ (by omega), clamp_round_int _ (by omega),
      clamp_round_int _ (by omega), clamp_round_int _ (by omega)]

set_option maxRecDepth 100000 in
theorem same_rule_float_witness :
    quantized_components_float 3 5 8 5 8 = (1, 3, 1, 3)
      ∧ ((quantized_components_float 3 5 8 5 8).1 = (quantized_components_float 3 5 8 5 8).2.2.1
          ∧ (quantized_components_float 3 5 8 5 8).2.1
              = (quantized_components_float 3 5 8 5 8).2.2.2)
      ∧ quantized_components_float 2 3 3 3 3
          = (min 4 (truncToInt (ratio_float 2 3) + 1), min 4 (truncToInt (ratio_float 2 3)),
              min 4 (truncToInt (ratio_float 2 3)), min 4 (truncToInt (ratio_float 2 3) + 1)) :=
  ⟨by decide!,
    (same_rule_float 3 5 8 (by norm_num) (by decide) (by decide) (by decide!) (by decide!)
      (by decide!)).1 (by decide!),
    (same_rule_float 2 3 3 (by norm_num) (by decide) (by decide) (by decide!) (by decide!)
      (by decide!)).2 (by decide!)⟩

/-! ## Claims about the numeric output and the symbol tables -/

/-- C11. `get_barcode_number ()` is the positional value of the digit array,
index 0 the most significant digit, and it is below `10 ^ 13` when every digit
is at most 9. -/
theorem get_barcode_number_value (s : Barcode) :
    get_barcode_number s
        = s.barcode_number.getD 0 0 * 10 ^ 12 + s.barcode_number.getD 1 0 * 10 ^ 11
          + s.barcode_number.getD 2 0 * 10 ^ 10 + s.barcode_number.getD 3 0 * 10 ^ 9
          + s.barcode_number.getD 4 0 * 10 ^ 8 + s.barcode_number.getD 5 0 * 10 ^ 7
          + s.barcode_number.getD 6 0 * 10 ^ 6 + s.barcode_number.getD 7 0 * 10 ^ 5
          + s.barcode_number.getD 8 0 * 10 ^ 4 + s.barcode_number.getD 9 0 * 10 ^ 3
          + s.barcode_number.getD 10 0 * 10 ^ 2 + s.barcode_number.getD 11 0 * 10 ^ 1
          + s.barcode_number.getD 12 0 * 10 ^ 0
      ∧ ((∀ x ∈ s.barcode_number, x ≤ 9) → get_barcode_number s < 10 ^ 13) := by
  have hb : (∀ x ∈ s.barcode_number, x ≤ 9) → ∀ i : Nat, s.barcode_number.getD i 0 ≤ 9 := by
    intro hd i
    by_cases hi : i < s.barcode_number.length
    · rw [List.getD_eq_getElem _ _ hi]
      exact hd _ (List.getElem_mem hi)
    · rw [List.getD_eq_default _ _ (by omega)]
      omega
  have e : get_barcode_number s
        = s.barcode_number.getD 0 0 * 10 ^ 12 + s.barcode_number.getD 1 0 * 10 ^ 11
          + s.barcode_number.getD 2 0 * 10 ^ 10 + s.barcode_number.getD 3 0 * 10 ^ 9
          + s.barcode_number.getD 4 0 * 10 ^ 8 + s.barcode_number.getD 5 0 * 10 ^ 7
          + s.barcode_number.getD 6 0 * 10 ^ 6 + s.barcode_number.getD 7 0 * 10 ^ 5
          + s.barcode_number.getD 8 0 * 10 ^ 4 + s.barcode_number.getD 9 0 * 10 ^ 3
          + s.barcode_number.getD 10 0 * 10 ^ 2 + s.barcode_number.getD 11 0 * 10 ^ 1
          + s.barcode_number.getD 12 0 * 10 ^ 0 := by
    simp only [get_barcode_number, barcode_number_size, List.range_succ, List.range_zero,
      List.nil_append, List.cons_append, get_barcode_number_loop]
    norm_num
    ring
  refine ⟨e, fun hd => ?_⟩
  rw [e]
  have hb := hb hd
  have h0 := hb 0
  have h1 := hb 1
  have h2 := hb 2
  have h3 := hb 3
  have h4 := hb 4
  have h5 := hb 5
  have h6 := hb 6
  have h7 := hb 7
  have h8 := hb 8
  have h9 := hb 9
  have h10 := hb 10
  have h11 := hb 11
  have h12 := hb 12
  omega

theorem get_barcode_number_value_witness :
    get_barcode_number
        { Barcode.fresh with barcode_number := [4, 0, 0, 6, 3, 8, 1, 3, 3, 3, 9, 3, 1] }
      = 4006381333931
    ∧ get_barcode_number
        { Barcode.fresh with barcode_number := [4, 0, 0, 6, 3, 8, 1, 3, 3, 3, 9, 3, 1] }
      < 10 ^ 13 :=
  ⟨by decide,
    (get_barcode_number_value
      { Barcode.fresh with barcode_number := [4, 0, 0, 6, 3, 8, 1, 3, 3, 3, 9, 3, 1] }).2
      (by decide)⟩

/-- C13. Every key of `LG_EAN_map` and `R_EAN_map` is a 4-digit numeral with
components in [1, 4] that sum to 7 and every mapped digit is in 0..9; the keys
of each table are distinct; `LG_EAN_map` holds each (digit, 'L') and
(digit, 'G') exactly once and nothing else, `R_EAN_map` each (digit, 'R')
exactly once and nothing else; `EAN_13_map` maps ten distinct 6-letter strings
over {L, G} one-to-one onto the digits 0..9. -/
theorem symbol_tables_well_formed :
    (∀ e ∈ LG_EAN_map ++ R_EAN_map,
        1000 ≤ e.1 ∧ e.1 ≤ 9999 ∧ (∀ c ∈ pattern_runs e.1, 1 ≤ c ∧ c ≤ 4)
          ∧ (pattern_runs e.1).sum = 7 ∧ e.2.1 ≤ 9)
      ∧ (LG_EAN_map.map (·.1)).Nodup ∧ LG_EAN_map.length = 20
      ∧ (∀ d ∈ List.range 10,
          (LG_EAN_map.filter (fun e => e.2 = (d, 'L'))).length = 1
            ∧ (LG_EAN_map.filter (fun e => e.2 = (d, 'G'))).length = 1)
      ∧ (R_EAN_map.map (·.1)).Nodup ∧ R_EAN_map.length = 10
      ∧ (∀ d ∈ List.range 10, (R_EAN_map.filter (fun e => e.2 = (d, 'R'))).length = 1)
      ∧ (EAN_13_map.map (·.1)).Nodup ∧ EAN_13_map.length = 10
      ∧ (∀ e ∈ EAN_13_map, e.1.length = 6 ∧ ∀ c ∈ e.1, c = 'L' ∨ c = 'G')
      ∧ (∀ d ∈ List.range 10, (EAN_13_map.filter (fun e => e.2 = d)).length = 1) := by
  decide

/-! ## The segmenter and the stale flags on concrete rows -/

/-- C15, evaluated. On the five pixels black, white, black, white, white the
call for a group of 3 started at index 0 is filled with the runs 1, 1, 1 and
returns 4, not 0 + (1 + 1 + 1) = 3; the next group would start on the second
pixel of its first run. -/
theorem segmenter_index_one_past :
    (constract_row_structure_part 5 row_guard 0 black_color 3).part_filled = true
      ∧ (constract_row_structure_part 5 row_guard 0 black_color 3).part = [1, 1, 1]
      ∧ (constract_row_structure_part 5 row_guard 0 black_color 3).index = 4
      ∧ (constract_row_structure_part 5 row_guard 0 black_color 3).index
          ≠ 0 + (constract_row_structure_part 5 row_guard 0 black_color 3).part.sum := by
  decide

/-- C16, evaluated. On 62 pixels alternating black and white the segmentation
succeeds, and run lengths of 0 are collected: the first slot of the middle
guard, of the right code and of the right guard. -/
theorem collected_run_of_length_zero :
    row_pixels.length = 62
      ∧ ∀ adjacent : Bool,
        (constract_row_structure adjacent 62 Barcode.fresh row_pixels).has_barcode_structure = true
          ∧ (constract_row_structure adjacent 62 Barcode.fresh row_pixels).middle_guards
            = [0, 1, 1, 1, 1]
          ∧ (constract_row_structure adjacent 62 Barcode.fresh row_pixels).right_code.getD 0 7 = 0
          ∧ (constract_row_structure adjacent 62 Barcode.fresh row_pixels).right_guards
            = [0, 1, 1] := by
  decide

set_option maxRecDepth 100000 in
/-- C19, evaluated. In the image of the rows `row_stripes`, `row_white` the
segmentation of row 1 fills no group, yet after row 0 the flag
`has_barcode_structure` is still set when `identify_barcode_number` runs on
row 1, and the module width it computes from the guards of row 1 is 0. -/
theorem module_width_zero_used :
    (row_stripes.length = 199 ∧ row_white.length = 199)
      ∧ ∀ adjacent : Bool,
        (constract_row_structure adjacent 199 Barcode.fresh row_white).has_barcode_structure
            = false
          ∧ (decode_row adjacent 199 Barcode.fresh row_stripes).is_correct = false
          ∧ (constract_row_structure adjacent 199
              (clear_data (decode_row adjacent 199 Barcode.fresh row_stripes))
              row_white).has_barcode_structure = true
          ∧ module_width
              (constract_row_structure adjacent 199
                (clear_data (decode_row adjacent 199 Barcode.fresh row_stripes)) row_white).left_guards
              (constract_row_structure adjacent 199
                (clear_data (decode_row adjacent 199 Barcode.fresh row_stripes)) row_white).middle_guards
              (constract_row_structure adjacent 199
                (clear_data (decode_row adjacent 199 Barcode.fresh row_stripes)) row_white).right_guards
            = 0 := by
  decide!

/-- C20, evaluated. On the five pixels black, white, black, white, white the
fourth iteration of the loop for a group of 3 slots raises `part_index` to 3
and then executes `part[part_index]++`: one increment falls outside the group. -/
theorem increment_outside_group :
    part_loop 5 row_guard 3 3
        { index := 0, part_index := 0, curr_color := black_color, prev_color := white_color,
          part := [0, 0, 0], spill := 0 }
        = { index := 3, part_index := 2, curr_color := black_color, prev_color := white_color,
            part := [1, 1, 1], spill := 0 }
      ∧ part_loop_body row_guard 3
          { index := 3, part_index := 2, curr_color := black_color, prev_color := white_color,
            part := [1, 1, 1], spill := 0 }
        = { index := 4, part_index := 3, curr_color := white_color, prev_color := black_color,
            part := [1, 1, 1], spill := 1 }
      ∧ (constract_row_structure_part 5 row_guard 0 black_color 3).spill = 1 := by
  decide

end BarcodeDetector
